import Mathlib

/-!
# NiuTrans.NMT trainer (`nmt/train/Trainer.cpp`): embedding and properties

Conventions of the embedding.

* `DTYPE`/`float` values are elements of a linear ordered field `α` with exact
  arithmetic; rounding is not modelled.  The C library functions `sqrt` and
  `pow` are the two fields of `CMath α`; theorems that depend on them
  instantiate `α := ℝ` with `Real.sqrt` and `Real.rpow`.
* The loss scalars, which the loss gate tests for NaN and infinity, are values
  of `DVal α`: a finite number, an infinity, or NaN.
* C `int` counters are `Int`.  `step` grows by one per processed batch and at
  most one batch is processed per epoch, so the counters stay below `nepoch`.
* A tensor is the list of its entries (`unitNum` is the length); a `NULL`
  gradient is `none`.
* `CheckNTErrors`/`ShowNTErrors` terminate the process: functions that can
  reach one return `Option`, and `none` is the aborted run.
-/

namespace nmt

/-! ## Scalars -/

/-- The two C math functions the trainer calls. -/
structure CMath (α : Type) where
  /-- C `sqrt`. -/
  sqrt : α → α
  /-- C `pow`. -/
  pow : α → α → α

/-- A float that may be NaN or infinite (`inf true` is `-∞`). -/
inductive DVal (α : Type) where
  | nan : DVal α
  | inf (neg : Bool) : DVal α
  | fin (x : α) : DVal α
  deriving DecidableEq, Repr

section Scalars
variable {α : Type} [LinearOrderedField α]

/-- IEEE addition on `DVal` (`loss += lossBatch`). -/
def DVal.add : DVal α → DVal α → DVal α
  | .nan, _ => .nan
  | _, .nan => .nan
  | .inf a, .inf b => if a = b then .inf a else .nan
  | .inf a, .fin _ => .inf a
  | .fin _, .inf b => .inf b
  | .fin x, .fin y => .fin (x + y)

/-- IEEE division of a float by an `int` converted to float (`lossBatch / wc`). -/
def DVal.divInt : DVal α → Int → DVal α
  | .nan, _ => .nan
  | .inf neg, wc => .inf (if wc < 0 then !neg else neg)
  | .fin x, wc =>
    if wc = 0 then (if x = 0 then .nan else .inf (decide (x < 0)))
    else .fin (x / (wc : α))

/-- IEEE `x < c` for a finite constant `c`: false on NaN. -/
def DVal.ltConst : DVal α → α → Bool
  | .nan, _ => false
  | .inf neg, _ => neg
  | .fin x, c => decide (x < c)

/-- Modelled from the spec: `IsNAN` of `XUtility.h` (absent from the sources),
true exactly on NaN ("not NaN"). -/
def IsNAN : DVal α → Bool
  | .nan => true
  | _ => false

/-- Modelled from the spec: `IsINF` of `XUtility.h` (absent from the sources),
true exactly on `+∞` and `-∞` ("not ±∞"). -/
def IsINF : DVal α → Bool
  | .inf _ => true
  | _ => false

end Scalars

/-! ## Tensors and the tensor engine primitives -/

section Tensors
variable {α : Type} [LinearOrderedField α]

/-- Modelled from the spec: `_ScaleAndShiftMe(a, scale, shift)` of the tensor
engine (absent from the sources), in place `a = a * scale + shift`. -/
def _ScaleAndShiftMe (a : List α) (scale shift : α) : List α :=
  a.map (fun x => x * scale + shift)

/-- Modelled from the spec: `_Sum(a, b, c, beta)` of the tensor engine (absent
from the sources), `c = a + b * beta`; shapes must agree. -/
def _Sum (a b : List α) (beta : α) : Option (List α) :=
  if a.length = b.length then some (List.zipWith (fun x y => x + y * beta) a b) else none

/-- Modelled from the spec: `_Multiply(a, b, c, alpha)` of the tensor engine
(absent from the sources), `c(i) = a(i) * b(i) + alpha * c(i)`; shapes must
agree. -/
def _Multiply (a b c : List α) (alpha : α) : Option (List α) :=
  if a.length = b.length ∧ a.length = c.length then
    some (List.zipWith (fun xy z => xy + alpha * z) (List.zipWith (fun x y => x * y) a b) c)
  else none

/-- Modelled from the spec: `_Power(a, b, p)` of the tensor engine (absent from
the sources), `b(i) = a(i)^p`. -/
def _Power (F : CMath α) (a : List α) (p : α) : List α :=
  a.map (fun x => F.pow x p)

/-- Modelled from the spec: `_Div(a, b, c, alpha)` of the tensor engine (absent
from the sources), `c(i) = a(i) / b(i) + alpha * c(i)`; shapes must agree.
`Update` calls it with the default `alpha = 0`. -/
def _Div (a b c : List α) (alpha : α) : Option (List α) :=
  if a.length = b.length ∧ a.length = c.length then
    some (List.zipWith (fun xy z => xy + alpha * z) (List.zipWith (fun x y => x / y) a b) c)
  else none

/-- Modelled from the spec: `XTensor::SetZeroAll` (absent from the sources),
zero-fill keeping the shape. -/
def SetZeroAll (a : List α) : List α :=
  a.map (fun _ => 0)

end Tensors

/-! ## Data model -/

/-- A parameter tensor `para` with its gradient `para->grad` (`none` is `NULL`). -/
structure Para (α : Type) where
  val : List α
  grad : Option (List α)
  deriving DecidableEq, Repr

/-- The part of `Model` the trainer uses: the type flags and the parameter list
returned by `GetParams`. -/
structure Model (α : Type) where
  isLM : Bool
  isMT : Bool
  params : List (Para α)
  deriving DecidableEq, Repr

/-- The fields of `Config` read by `Trainer::Init` and used by the modelled code. -/
structure Config (α : Type) where
  lrate : α
  nepoch : Int
  nstep : Int
  maxCheckpoint : Int
  nwarmup : Int
  useAdam : Bool
  adamBeta1 : α
  adamBeta2 : α
  adamDelta : α
  nStepCheckpoint : Int
  useEpochCheckpoint : Bool
  updateStep : Int
  deriving DecidableEq, Repr

/-- The members of `Trainer` used by the modelled code. -/
structure Trainer (α : Type) where
  cfg : Config α
  lrate : α
  nepoch : Int
  nstep : Int
  maxCheckpoint : Int
  nwarmup : Int
  useAdam : Bool
  adamBeta1 : α
  adamBeta2 : α
  adamDelta : α
  nStepCheckpoint : Int
  useEpochCheckpoint : Bool
  updateStep : Int
  moments : List (List α)
  moments2nd : List (List α)
  adamBeta1T : α
  adamBeta2T : α
  deriving DecidableEq, Repr

section Optimizer
variable {α : Type} [LinearOrderedField α]

/-- The constructor `Trainer::Trainer()` followed by `Trainer::Init(config)`: the moment lists of
a new trainer are empty. -/
def Trainer.Init (config : Config α) : Trainer α :=
  { cfg := config
    lrate := config.lrate
    nepoch := config.nepoch
    nstep := config.nstep
    maxCheckpoint := config.maxCheckpoint
    nwarmup := config.nwarmup
    useAdam := config.useAdam
    adamBeta1 := config.adamBeta1
    adamBeta2 := config.adamBeta2
    adamDelta := config.adamDelta
    nStepCheckpoint := config.nStepCheckpoint
    useEpochCheckpoint := config.useEpochCheckpoint
    updateStep := config.updateStep
    moments := []
    moments2nd := []
    adamBeta1T := 1
    adamBeta2T := 1 }

/-- The adaptive branch of the body of the loop of `Trainer::Update` (lines
407-433) for parameter `i` with value `para` and gradient `paraGrad`: returns
the trainer and the new value of the parameter. -/
def adamBranch (F : CMath α) (t : Trainer α) (lr : α) (i : Nat) (para paraGrad : List α) :
    Option (Trainer α × List α) :=
  let adamBeta1T := t.adamBeta1T * t.adamBeta1
  let adamBeta2T := t.adamBeta2T * t.adamBeta2
  let e := lr * F.sqrt (1 - adamBeta2T) / (1 - adamBeta1T)
  let d := t.adamDelta * F.sqrt (1 - adamBeta2T)
  do
    let m ← t.moments[i]?
    let m := _ScaleAndShiftMe m t.adamBeta1 0
    let m ← _Sum m paraGrad (1 - t.adamBeta1)
    let v ← t.moments2nd[i]?
    let v ← _Multiply paraGrad paraGrad v (t.adamBeta2 / (1 - t.adamBeta2))
    let v := _ScaleAndShiftMe v (1 - t.adamBeta2) 0
    let v2 := _Power F v (1 / 2)
    let v2 := _ScaleAndShiftMe v2 1 d
    let v2 ← _Div m v2 v2 0
    let para ← _Sum para v2 (-e)
    pure ({ t with adamBeta1T := adamBeta1T, adamBeta2T := adamBeta2T,
                   moments := t.moments.set i m, moments2nd := t.moments2nd.set i v }, para)

/-- One iteration, index `i`, of the loop of `Trainer::Update` (lines 397-441)
on the trainer and the parameter list `ws`. -/
def UpdateAt (F : CMath α) (lr : α) (s : Trainer α × List (Para α)) (i : Nat) :
    Option (Trainer α × List (Para α)) :=
  match s.2[i]? with
  | none => none
  | some para =>
    match para.grad with
    | none => some s
    | some paraGrad =>
      if s.1.useAdam then do
        let r ← adamBranch F s.1 lr i para.val paraGrad
        pure (r.1, s.2.set i { val := r.2, grad := some (SetZeroAll paraGrad) })
      else do
        let p ← _Sum para.val paraGrad (-lr)
        pure (s.1, s.2.set i { val := p, grad := some (SetZeroAll paraGrad) })

/-- The function `Trainer::Update(model, lr)`: the loop over the parameters of the
model. -/
def Update (F : CMath α) (t : Trainer α) (model : Model α) (lr : α) :
    Option (Trainer α × Model α) :=
  ((List.range model.params.length).foldlM (UpdateAt F lr) (t, model.params)).map
    (fun r => (r.1, { model with params := r.2 }))

/-- Modelled from the spec: `XNoder::MakeGrad(para)` of the tensor engine (absent
from the sources): a parameter whose gradient is missing or of another shape
gets a zero gradient of its own shape ("a gradient tensor of identical shape,
lazily created before training"). -/
def MakeGrad (para : Para α) : Para α :=
  match para.grad with
  | some g => if g.length = para.val.length then para
              else { para with grad := some (SetZeroAll para.val) }
  | none => { para with grad := some (SetZeroAll para.val) }

/-- The function `Trainer::PrepareModel(model)`; `new XTensor(para)` followed by `SetZeroAll`
is a zero tensor of the shape of `para`. -/
def PrepareModel (t : Trainer α) (model : Model α) : Trainer α × Model α :=
  let ws := model.params
  ({ t with moments := if t.useAdam then ws.map (fun para => SetZeroAll para.val) else []
            moments2nd := if t.useAdam then ws.map (fun para => SetZeroAll para.val) else []
            adamBeta1T := 1
            adamBeta2T := 1 },
   { model with params := ws.map MakeGrad })

end Optimizer

/-! ## The training loop -/

/-- Modelled from the spec: the collaborators of the trainer that are absent
from the sources, over a type `B` of batches: what `LoadBatch` reports about a
batch, the forward pass with the loss reduction, and the reverse pass. -/
structure Collab (α B : Type) where
  /-- `info[0]` of `LoadBatch`: the number of target words of the batch. -/
  wc : B → Int
  /-- `info[1]` of `LoadBatch`: the number of sentences of the batch. -/
  ws : B → Int
  /-- `batchEnc.order` after `LoadBatch`. -/
  order : B → Int
  /-- `output.GetDim(0)` after the forward pass. -/
  bSize : B → Int
  /-- `ReduceSumAllValue(CrossEntropy(output, labelOnehot, paddingDec))` after
  `MakeLM`/`MakeMT` with the given training flag. -/
  lossBatch : Bool → B → Model α → DVal α
  /-- `net.Backward(lossTensor)`: the gradient of parameter `i` after the call
  ("populates `.grad` on every parameter reachable from the loss"). -/
  Backward : B → Model α → Nat → Option (List α)

/-- Modelled from the spec: the batch loader (absent from the sources).  `file k`
is the sequence of batches the data file yields on pass `k`: pass 0 follows
`Init`, each `ClearBuf` starts the next pass. -/
structure BatchLoader (B : Type) where
  file : Nat → List B
  pass : Nat
  buf : List B

/-- Modelled from the spec: `batchLoader.Init(fn, ...)`. -/
def BatchLoader.Init {B : Type} (fn : Nat → List B) : BatchLoader B :=
  { file := fn, pass := 0, buf := fn 0 }

/-- Modelled from the spec: `batchLoader.ClearBuf()`, "reset the batch loader". -/
def BatchLoader.ClearBuf {B : Type} (l : BatchLoader B) : BatchLoader B :=
  { l with pass := l.pass + 1, buf := l.file (l.pass + 1) }

/-- Modelled from the spec: `batchLoader.IsEmpty()`. -/
def BatchLoader.IsEmpty {B : Type} (l : BatchLoader B) : Bool :=
  l.buf.isEmpty

/-- One `model->Dump(fn)` of `MakeCheckpoint`: the label and id that went into
the file name, and the file name. -/
structure Snapshot where
  label : String
  id : Int
  fn : String
  deriving DecidableEq, Repr

/-- What one pass through the body of the batch loop of `Train` did (a record
kept for the statements; the code keeps no such list). -/
structure StepRec (α : Type) where
  /-- The value of `step` when the batch was loaded. -/
  step : Int
  /-- The value of `doUpdate`. -/
  usable : Bool
  /-- The `lr` of the call `Update(model, lr)`, when the pass made one. -/
  update : Option α

/-- The state of a run of `Trainer::Train`: the trainer, the model, the loader and
the local variables of `Train`, together with two records kept for the
statements: `dumps`, the snapshots `MakeCheckpoint` wrote, in order, and `hist`,
one entry for each batch that went through the loop body, in order. -/
structure TrainState (α B : Type) where
  trainer : Trainer α
  model : Model α
  batchLoader : BatchLoader B
  dumps : List Snapshot
  hist : List (StepRec α)
  step : Int
  wc : Int
  ws : Int
  wordCount : Int
  wordCountTotal : Int
  batchCountTotal : Int
  isEnd : Bool
  loss : DVal α
  lr : α
  nStepCheck : Int
  nCheckpoint : Int
  nSkipped : Int
  gradStep : Int
  validStep : Int
  epoch : Int

/-- C `sprintf("%03d", id)`: at least three characters, zero padded, the sign
counted. -/
def fmt03d (id : Int) : String :=
  if id < 0 then
    "-" ++ String.mk (List.replicate (2 - (Nat.repr (-id).toNat).length) '0') ++ Nat.repr (-id).toNat
  else
    String.mk (List.replicate (3 - (Nat.repr id.toNat).length) '0') ++ Nat.repr id.toNat

section Loop
variable {α B : Type} [LinearOrderedField α]

/-- The learning rate computed at lines 208-217 of `Train` from `lrate`,
`nwarmup` and the value of `step`. -/
def scheduleLR (F : CMath α) (lrate : α) (nwarmup step : Int) : α :=
  let warmupEndLR := lrate
  let warmupInitLR : α := 1e-7
  let lrStep := (warmupEndLR - warmupInitLR) / (nwarmup : α)
  let decayFactor := warmupEndLR * F.pow (nwarmup : α) (1 / 2)
  if step < nwarmup then warmupInitLR + (step : α) * lrStep
  else decayFactor * F.pow (step : α) (-(1 / 2))

/-- The loss gate of line 193 on `lossLocal = lossBatch / wc`. -/
def lossGate (lossLocal : DVal α) : Bool :=
  !IsNAN lossLocal && !IsINF lossLocal && lossLocal.ltConst 1e3

/-- The result of `Trainer::Validate`: its local sums when the loop ends. -/
structure ValidateOut (α : Type) where
  wordCount : Int
  sentCount : Int
  loss : DVal α

/-- The loop of `Trainer::Validate` (lines 306-340) over the batches left in the
loader. -/
def ValidateLoop (E : Collab α B) (model : Model α) : List B → ValidateOut α → Option (ValidateOut α)
  | [], r => some r
  | b :: buf, r =>
    if E.order b = 2 then
      if model.isLM || model.isMT then
        ValidateLoop E model buf
          { wordCount := r.wordCount + E.wc b
            sentCount := r.sentCount + E.bSize b
            loss := r.loss.add (E.lossBatch false b model) }
      else none
    else none

/-- The function `Trainer::Validate(fn, ofn, model)`: the loop over the batches of
the file after `batchLoader.Init`; `ofn` is not used by the code. -/
def Validate (E : Collab α B) (fn : Nat → List B) (model : Model α) : Option (ValidateOut α) :=
  ValidateLoop E model (BatchLoader.Init fn).buf { wordCount := 0, sentCount := 0, loss := .fin 0 }

/-- The function `Trainer::MakeCheckpoint(model, validFN, modelFN, label, id)` on the trainer
`t`: returns the trainer and the snapshot written.  The argument `id` is
overwritten before it is read, so it is not a parameter here. -/
def MakeCheckpoint (E : Collab α B) (t : Trainer α) (model : Model α)
    (validFN : Option (Nat → List B)) (modelFN label : String) : Option (Trainer α × Snapshot) :=
  let validator : Trainer α := Trainer.Init t.cfg
  let id := validator.maxCheckpoint - t.maxCheckpoint
  let t1 := { t with maxCheckpoint := t.maxCheckpoint - 1 }
  let t2 := if t1.maxCheckpoint = 0 then { t1 with maxCheckpoint := validator.maxCheckpoint } else t1
  let fn := modelFN ++ "." ++ label ++ "." ++ fmt03d id
  match validFN with
  | none => some (t2, { label := label, id := id, fn := fn })
  | some vfn =>
    match Validate E vfn model with
    | none => none
    | some _ => some (t2, { label := label, id := id, fn := fn })

/-- The call `net.Backward(lossTensor)` on the model: every parameter keeps its value and
gets the gradient the reverse pass computes for it. -/
def applyBackward (E : Collab α B) (b : B) (model : Model α) : Model α :=
  { model with
    params := (List.range model.params.length).zipWith
      (fun i para => { para with grad := E.Backward b model i }) model.params }

/-- Lines 164-228 of `Train` for the loaded batch `b`: forward pass, loss gate,
and for a usable batch the reverse pass, the counters and, when `gradStep`
reaches `updateStep`, the scheduled `Update`. -/
def trainStep (F : CMath α) (E : Collab α B) (s0 : TrainState α B) (b : B) :
    Option (TrainState α B) :=
  let s := { s0 with wc := E.wc b, ws := E.ws b }
  if E.order b = 2 then
    if s.model.isLM || s.model.isMT then
      let lossBatch := E.lossBatch true b s.model
      let lossLocal := lossBatch.divInt s.wc
      let doUpdate := lossGate lossLocal
      if doUpdate then
        let s1 := { s with
          model := applyBackward E b s.model
          gradStep := s.gradStep + 1
          loss := s.loss.add lossBatch
          wordCount := s.wordCount + s.wc
          wordCountTotal := s.wordCountTotal + s.wc
          batchCountTotal := s.batchCountTotal + s.ws }
        if s1.gradStep = s1.trainer.updateStep then
          let lr := scheduleLR F s1.trainer.lrate s1.trainer.nwarmup s1.step
          match Update F s1.trainer s1.model lr with
          | none => none
          | some r =>
            some { s1 with
              lr := lr
              trainer := r.1
              model := r.2
              gradStep := 0
              validStep := s1.validStep + 1
              hist := s1.hist ++ [{ step := s1.step, usable := true, update := some lr }] }
        else
          some { s1 with hist := s1.hist ++ [{ step := s1.step, usable := true, update := none }] }
      else
        some { s with
          nSkipped := s.nSkipped + 1
          hist := s.hist ++ [{ step := s.step, usable := false, update := none }] }
    else none
  else none

/-- The batch loop of `Train` (lines 162-251).  Every path through the body of
the `while` leaves it by a `break` (line 232 or line 250), so the loop processes
the first batch of the loader, if there is one, and ends. -/
def batchLoop (F : CMath α) (E : Collab α B) (validFN : Option (Nat → List B)) (modelFN : String)
    (s : TrainState α B) : Option (TrainState α B) :=
  match s.batchLoader.buf with
  | [] => some s
  | b :: buf =>
    match trainStep F E { s with batchLoader := { s.batchLoader with buf := buf } } b with
    | none => none
    | some s1 =>
      let s2 : TrainState α B := { s1 with step := s1.step + 1 }
      if s2.step ≥ s2.trainer.nstep then some { s2 with isEnd := true }
      else if s2.trainer.nStepCheckpoint > (0 : Int) then
        let s3 : TrainState α B := { s2 with nStepCheck := s2.nStepCheck + 1 }
        if s3.nStepCheck ≥ s3.trainer.nStepCheckpoint then
          match MakeCheckpoint E s3.trainer s3.model validFN modelFN "step" with
          | none => none
          | some r =>
            some { s3 with
              trainer := r.1
              dumps := s3.dumps ++ [r.2]
              nStepCheck := 0
              nCheckpoint := s3.nCheckpoint + 1 }
        else some s3
      else some s2

/-- The epoch loop of `Train` (lines 143-258) with `n` iterations left before
`epoch` exceeds `nepoch`. -/
def epochLoop (F : CMath α) (E : Collab α B) (validFN : Option (Nat → List B)) (modelFN : String) :
    Nat → TrainState α B → Option (TrainState α B)
  | 0, s => some s
  | n + 1, s =>
    let s1 := { s with
      wordCount := 0
      loss := .fin 0
      batchLoader := s.batchLoader.ClearBuf }
    match batchLoop F E validFN modelFN s1 with
    | none => none
    | some s2 =>
      if s2.isEnd then some s2
      else if s2.trainer.useEpochCheckpoint then
        match MakeCheckpoint E s2.trainer s2.model validFN modelFN "epoch" with
        | none => none
        | some r =>
          epochLoop F E validFN modelFN n
            { s2 with trainer := r.1, dumps := s2.dumps ++ [r.2], epoch := s2.epoch + 1 }
      else epochLoop F E validFN modelFN n { s2 with epoch := s2.epoch + 1 }

/-- The state of `Train` when the epoch loop is entered (lines 109-141): the
locals are zero, the model is prepared and the loader initialised. -/
def Train.init (t : Trainer α) (fn : Nat → List B) (model : Model α) : TrainState α B :=
  { trainer := (PrepareModel t model).1
    model := (PrepareModel t model).2
    batchLoader := BatchLoader.Init fn
    dumps := []
    hist := []
    step := 0
    wc := 0
    ws := 0
    wordCount := 0
    wordCountTotal := 0
    batchCountTotal := 0
    isEnd := false
    loss := .fin 0
    lr := 0
    nStepCheck := 0
    nCheckpoint := 0
    nSkipped := 0
    gradStep := 0
    validStep := 0
    epoch := 1 }

/-- The function `Trainer::Train(fn, validFN, modelFN, model)`: the state when the final model
is dumped (line 271).  The loop `for (epoch = 1; epoch <= nepoch; epoch++)` has
`nepoch` iterations unless it is left by `break`.  The decoder caches of lines
105-108, the clock and the progress output are not part of the state. -/
def Train (F : CMath α) (E : Collab α B) (t : Trainer α) (fn : Nat → List B)
    (validFN : Option (Nat → List B)) (modelFN : String) (model : Model α) :
    Option (TrainState α B) :=
  (epochLoop F E validFN modelFN t.nepoch.toNat (Train.init t fn model)).map
    (fun s => { s with epoch := min s.epoch s.trainer.nepoch })

end Loop

/-! ## The rules of the specification -/

section SpecRules
variable {α : Type} [LinearOrderedField α]

/-- The first-moment rule as the specification words it: `M ← β1 · M + (1 − β1) · g`. -/
def specM (beta1 M g : α) : α :=
  beta1 * M + (1 - beta1) * g

/-- The second-moment rule as the specification words it:
`V ← β2 · V + (1 − β2) · g ⊙ g`. -/
def specV (beta2 V g : α) : α :=
  beta2 * V + (1 - beta2) * (g * g)

/-- The parameter rule as the specification words it: `U = M / (√V + d')`,
`p ← p − ε · U`. -/
def specP (sqrt : α → α) (e d p M V : α) : α :=
  p - e * (M / (sqrt V + d))

/-- The plain SGD rule as the specification words it, for one parameter: with a
non-null gradient `p ← p − lr · g`, then `g` is zeroed; a parameter with a null
gradient is skipped. -/
def specSGD (lr : α) (p : Para α) : Para α :=
  match p.grad with
  | none => p
  | some g => { val := List.zipWith (fun x y => x - lr * y) p.val g, grad := some (g.map (fun _ => 0)) }

end SpecRules

/-! ## Concrete inputs -/

section Inputs
variable (α : Type) [LinearOrderedField α]

/-- A configuration that selects the adaptive optimizer with `β1 = 0.9`,
`β2 = 0.999`, `δ = 1e-9`. -/
def adamConfig : Config α :=
  { lrate := 7e-4
    nepoch := 1
    nstep := 10
    maxCheckpoint := 1
    nwarmup := 4000
    useAdam := true
    adamBeta1 := 0.9
    adamBeta2 := 0.999
    adamDelta := 1e-9
    nStepCheckpoint := 0
    useEpochCheckpoint := false
    updateStep := 1 }

/-- The trainer of `adamConfig` prepared for two scalar parameters: `β1^t = β2^t = 1`
and zero moments. -/
def twoParamTrainer : Trainer α :=
  { Trainer.Init (adamConfig α) with moments := [[0], [0]], moments2nd := [[0], [0]] }

/-- A model with two scalar parameters `0`, each with gradient `1`. -/
def twoParamModel : Model α :=
  { isLM := false, isMT := true, params := [{ val := [0], grad := some [1] }, { val := [0], grad := some [1] }] }

/-- The model of scenario S5: one scalar parameter `p = 1.0` with gradient `g = 0.1`. -/
def sgdModel : Model α :=
  { isLM := false, isMT := true, params := [{ val := [1.0], grad := some [0.1] }] }

/-- Collaborators for the concrete runs: a batch is its own loss sum, it has one
target word, one sentence and order 2, and the reverse pass gives every
parameter the gradient `[1]`. -/
def unitCollab : Collab α (DVal α) :=
  { wc := fun _ => 1
    ws := fun _ => 1
    order := fun _ => 2
    bSize := fun _ => 1
    lossBatch := fun _ b _ => b
    Backward := fun _ _ _ => some [1] }

/-- A translation model with one scalar parameter `1` that has no gradient yet. -/
def oneParamModel : Model α :=
  { isLM := false, isMT := true, params := [{ val := [1], grad := none }] }

/-- A configuration with the non-adaptive optimizer: one epoch, at most ten
steps, one checkpoint slot, no checkpoint trigger, an update on every usable
batch. -/
def plainConfig : Config α :=
  { lrate := 7e-4
    nepoch := 1
    nstep := 10
    maxCheckpoint := 1
    nwarmup := 4000
    useAdam := false
    adamBeta1 := 0.9
    adamBeta2 := 0.999
    adamDelta := 1e-9
    nStepCheckpoint := 0
    useEpochCheckpoint := false
    updateStep := 1 }

/-- The trainer of `adamConfig` after `PrepareModel` for one scalar parameter:
`β1^t = β2^t = 1` and zero moments `M = V = [0]`. -/
def oneParamAdamTrainer : Trainer α :=
  { Trainer.Init (adamConfig α) with moments := [[0]], moments2nd := [[0]] }

/-- The model of scenario S6: one scalar parameter `p = 0` with gradient `g = 1`. -/
def adamModel : Model α :=
  { isLM := false, isMT := true, params := [{ val := [0], grad := some [1] }] }

/-- A model with two scalar parameters: the first, `5`, has a null gradient, the
second, `0`, has the gradient `1`. -/
def mixedModel : Model α :=
  { isLM := false, isMT := true, params := [{ val := [5], grad := none }, { val := [0], grad := some [1] }] }

end Inputs

/-! ## Notions used in the statements -/

section Notions
variable {α B : Type} [LinearOrderedField α]

/-- The trainer `t2` differs from `t1` at most in the optimizer state: the moment
lists and the two powers. -/
def Trainer.sameConfig (t1 t2 : Trainer α) : Prop :=
  t2 = { t1 with moments := t2.moments, moments2nd := t2.moments2nd,
                 adamBeta1T := t2.adamBeta1T, adamBeta2T := t2.adamBeta2T }

/-- The number of usable (gate-passing) batches of a history. -/
def usableCount (h : List (StepRec α)) : Nat :=
  (h.filter (fun r => r.usable)).length

/-- The number of batches of a history on which `Update` was called. -/
def updateCount (h : List (StepRec α)) : Nat :=
  (h.filter (fun r => r.update.isSome)).length

/-- The snapshots of a list that carry the given label. -/
def withLabel (label : String) (dumps : List Snapshot) : List Snapshot :=
  dumps.filter (fun d => d.label = label)

/-- Successive calls of `MakeCheckpoint` on one trainer, one for each model and
label of the list: the trainer after the last call and the snapshots written,
in order. -/
def MakeCheckpoints (E : Collab α B) (validFN : Option (Nat → List B)) (modelFN : String) :
    Trainer α → List (Model α × String) → Option (Trainer α × List Snapshot)
  | t, [] => some (t, [])
  | t, c :: cs =>
    match MakeCheckpoint E t c.1 validFN modelFN c.2 with
    | none => none
    | some r =>
      match MakeCheckpoints E validFN modelFN r.1 cs with
      | none => none
      | some r2 => some (r2.1, r.2 :: r2.2)

/-- The step-checkpoint invariant of a run of `Train` with `nStepCheckpoint = N`:
`step` counts the processed batches, `nCheckpoint` counts the snapshots labelled
"step", and both `nStepCheck` and `nCheckpoint` follow the number of batches
that reached the checkpoint test of line 245 (all of them, but for the batch on
which `step` reached `nstep`). -/
def StepCkptInv (N : Int) (s : TrainState α B) : Prop :=
  s.trainer.nStepCheckpoint = N ∧ s.step = (s.hist.length : Int) ∧
  s.nCheckpoint = ((withLabel "step" s.dumps).length : Int) ∧
  (s.isEnd = false → s.nStepCheck = s.step % N ∧ s.nCheckpoint = s.step / N) ∧
  (s.isEnd = true → s.nCheckpoint = (s.step - 1) / N)

/-- The rotation invariant of a run of `Train` with `maxCheckpoint = K` in the
configuration: the slot counter of the trainer is in `1..K`, and every snapshot
written has label "step" or "epoch", an id in `0..K-1` and the file name
`<modelFN>.<label>.<id:03d>`. -/
def RotationInv (K : Int) (modelFN : String) (s : TrainState α B) : Prop :=
  s.trainer.cfg.maxCheckpoint = K ∧ 1 ≤ s.trainer.maxCheckpoint ∧ s.trainer.maxCheckpoint ≤ K ∧
  ∀ d ∈ s.dumps, (d.label = "step" ∨ d.label = "epoch") ∧ 0 ≤ d.id ∧ d.id < K ∧
    d.fn = modelFN ++ "." ++ d.label ++ "." ++ fmt03d d.id

/-- The schedule invariant of a run of `Train` with `lrate = L` and `nwarmup = W`:
`step` counts the processed batches, the batch at position `i` (from 0) was
loaded with `step = i`, and a call of `Update` on it got the learning rate of
the schedule at `i`. -/
def ScheduleInv (F : CMath α) (L : α) (W : Int) (s : TrainState α B) : Prop :=
  s.trainer.lrate = L ∧ s.trainer.nwarmup = W ∧ s.step = (s.hist.length : Int) ∧
  ∀ (i : Nat) (rec : StepRec α), s.hist[i]? = some rec →
    rec.step = (i : Int) ∧ ∀ lr, rec.update = some lr → lr = scheduleLR F L W (i : Int)

/-- The shapes `Update` needs at parameter `i`: a parameter with a gradient has a
gradient of its own shape and, with the adaptive optimizer, moment entries at
index `i` of that shape.  A parameter with a null gradient needs nothing. -/
def Para.wellShaped (t : Trainer α) (i : Nat) (p : Para α) : Prop :=
  ∀ g, p.grad = some g → g.length = p.val.length ∧
    (t.useAdam = true → ∃ m v, t.moments[i]? = some m ∧ t.moments2nd[i]? = some v ∧
      m.length = g.length ∧ v.length = g.length)

/-- What a call of `Update` on the trainer `t` leaves at index `j`, where the
parameter was `p`: the parameter `c` and the moment entries `m`, `v` after the
call.  With a null gradient all three are as before; otherwise they come from
the non-adaptive rule, or from the adaptive branch run at index `j` on a
trainer that has the configuration of `t` and the moment entries of `t` at `j`. -/
def UpdatedAt (F : CMath α) (lr : α) (t : Trainer α) (j : Nat) (p : Para α)
    (c : Option (Para α)) (m v : Option (List α)) : Prop :=
  match p.grad with
  | none => c = some p ∧ m = t.moments[j]? ∧ v = t.moments2nd[j]?
  | some g =>
    if t.useAdam = true then
      ∃ tj a, t.sameConfig tj ∧ tj.moments[j]? = t.moments[j]? ∧
        tj.moments2nd[j]? = t.moments2nd[j]? ∧
        adamBranch F tj lr j p.val g = some a ∧
        c = some { val := a.2, grad := some (SetZeroAll g) } ∧
        m = a.1.moments[j]? ∧ v = a.1.moments2nd[j]?
    else
      c = some (specSGD lr p) ∧ m = t.moments[j]? ∧ v = t.moments2nd[j]?

end Notions

/-! ## Lemmas on `Update` -/

section UpdateLemmas
variable {α : Type} [LinearOrderedField α]

theorem _Sum_of_length_eq (a b : List α) (beta : α) (h : a.length = b.length) :
    _Sum a b beta = some (List.zipWith (fun x y => x + y * beta) a b) := by
  simp [_Sum, h]

/-- With the non-adaptive optimizer one iteration of the loop of `Update` applies
the SGD rule to parameter `i`. -/
theorem UpdateAt_sgd (F : CMath α) (lr : α) (t : Trainer α) (cur : List (Para α)) (i : Nat)
    (p : Para α) (hA : t.useAdam = false) (hp : cur[i]? = some p)
    (hs : ∀ g, p.grad = some g → g.length = p.val.length) :
    UpdateAt F lr (t, cur) i = some (t, cur.set i (specSGD lr p)) := by
  have hi : i < cur.length := by
    by_contra h
    rw [List.getElem?_eq_none (by omega)] at hp
    cases hp
  unfold UpdateAt
  simp only [hp]
  cases hg : p.grad with
  | none =>
    have : specSGD lr p = p := by simp [specSGD, hg]
    simp only [this]
    have h2 : cur.set i p = cur := by
      apply List.ext_getElem?
      intro j
      by_cases hj : i = j
      · subst hj; simp [List.getElem?_set, hi, hp]
      · simp [List.getElem?_set, hj]
    rw [h2]
  | some g =>
    have hl := hs g hg
    simp only [hA, Bool.false_eq_true, if_false, _Sum, hl, if_true, Option.bind_eq_bind,
      Option.some_bind, Option.pure_def, SetZeroAll]
    have : specSGD lr p =
        { val := List.zipWith (fun x y => x + y * -lr) p.val g, grad := some (g.map (fun _ => 0)) } := by
      simp only [specSGD, hg]
      congr 1
      apply List.ext_getElem
      · simp
      · intro n h1 h2
        simp
        ring
    rw [this]

/-- The first `k` iterations of the loop of `Update`, non-adaptive optimizer. -/
theorem Update_sgd_fold (F : CMath α) (lr : α) (t : Trainer α) (ws : List (Para α))
    (hA : t.useAdam = false)
    (hs : ∀ p ∈ ws, ∀ g, p.grad = some g → g.length = p.val.length) :
    ∀ k, k ≤ ws.length → ∃ cur, (List.range k).foldlM (UpdateAt F lr) (t, ws) = some (t, cur) ∧
      cur.length = ws.length ∧
      ∀ j, cur[j]? = if j < k then (ws[j]?).map (specSGD lr) else ws[j]? := by
  intro k
  induction k with
  | zero => intro _; exact ⟨ws, by simp⟩
  | succ k ih =>
    intro hk
    obtain ⟨cur, h1, h2, h3⟩ := ih (by omega)
    have hkw : k < ws.length := by omega
    have hp : cur[k]? = some ws[k] := by
      rw [h3 k]; simp [hkw]
    refine ⟨cur.set k (specSGD lr ws[k]), ?_, by simp [h2], ?_⟩
    · rw [List.range_succ, List.foldlM_append, h1]
      simp only [Option.bind_eq_bind, Option.some_bind, List.foldlM_cons, List.foldlM_nil]
      rw [UpdateAt_sgd F lr t cur k ws[k] hA hp (hs _ (List.getElem_mem _))]
      simp
    · intro j
      by_cases hj : k = j
      · subst hj
        simp [List.getElem?_set, h2, hkw]
      · rw [List.getElem?_set_ne hj, h3 j]
        have : (j < k + 1) ↔ (j < k) := by omega
        simp only [this]

end UpdateLemmas


/-! ## Lemmas on the training loop -/

section FrameLemmas
variable {α B : Type}

theorem Trainer.sameConfig_refl (t : Trainer α) : t.sameConfig t := rfl

theorem Trainer.sameConfig_trans {t1 t2 t3 : Trainer α} (h1 : t1.sameConfig t2) (h2 : t2.sameConfig t3) :
    t1.sameConfig t3 := by
  unfold Trainer.sameConfig at *
  rw [h2, h1]

theorem foldlM_option_inv {σ ι : Type} (f : σ → ι → Option σ) (P : σ → Prop)
    (h : ∀ s i s', P s → f s i = some s' → P s') :
    ∀ (l : List ι) (s s' : σ), P s → l.foldlM f s = some s' → P s' := by
  intro l
  induction l with
  | nil => intro s s' hs h1; simp at h1; subst h1; exact hs
  | cons a l ih =>
    intro s s' hs h1
    simp only [List.foldlM_cons, Option.bind_eq_bind, Option.bind_eq_some] at h1
    obtain ⟨s1, h2, h3⟩ := h1
    exact ih s1 s' (h s a s1 hs h2) h3

end FrameLemmas

section LoopLemmas
variable {α B : Type} [LinearOrderedField α]

theorem adamBranch_sameConfig (F : CMath α) (t : Trainer α) (lr : α) (i : Nat) (para g : List α)
    (r : Trainer α × List α) (h : adamBranch F t lr i para g = some r) : t.sameConfig r.1 := by
  simp only [adamBranch, Option.bind_eq_bind, Option.bind_eq_some, Option.pure_def, Option.some.injEq] at h
  obtain ⟨m, _, m1, _, v, _, v1, _, v2, _, p, _, h⟩ := h
  subst h
  rfl

theorem UpdateAt_sameConfig (F : CMath α) (lr : α) (s s' : Trainer α × List (Para α)) (i : Nat)
    (h : UpdateAt F lr s i = some s') : s.1.sameConfig s'.1 ∧ s'.2.length = s.2.length := by
  unfold UpdateAt at h
  split at h
  · cases h
  · split at h
    · cases h; exact ⟨rfl, rfl⟩
    · split at h
      · simp only [Option.bind_eq_bind, Option.bind_eq_some, Option.pure_def, Option.some.injEq] at h
        obtain ⟨r, h1, h2⟩ := h
        subst h2
        exact ⟨adamBranch_sameConfig F _ lr i _ _ r h1, by simp⟩
      · simp only [Option.bind_eq_bind, Option.bind_eq_some, Option.pure_def, Option.some.injEq] at h
        obtain ⟨r, h1, h2⟩ := h
        subst h2
        exact ⟨rfl, by simp⟩

theorem Update_sameConfig (F : CMath α) (t : Trainer α) (model : Model α) (lr : α)
    (r : Trainer α × Model α) (h : Update F t model lr = some r) :
    t.sameConfig r.1 ∧ r.2.isLM = model.isLM ∧ r.2.isMT = model.isMT ∧
      r.2.params.length = model.params.length := by
  simp only [Update, Option.map_eq_some'] at h
  obtain ⟨r0, h1, h2⟩ := h
  subst h2
  have := foldlM_option_inv (UpdateAt F lr)
    (fun s => t.sameConfig s.1 ∧ s.2.length = model.params.length)
    (fun s i s' hs hf => ⟨Trainer.sameConfig_trans hs.1 (UpdateAt_sameConfig F lr s s' i hf).1,
      by rw [(UpdateAt_sameConfig F lr s s' i hf).2, hs.2]⟩)
    _ _ r0 ⟨Trainer.sameConfig_refl t, rfl⟩ h1
  exact ⟨this.1, rfl, rfl, this.2⟩

theorem trainStep_cases (F : CMath α) (E : Collab α B) (s s' : TrainState α B) (b : B)
    (h : trainStep F E s b = some s') :
    E.order b = 2 ∧ (s.model.isLM || s.model.isMT) = true ∧
    ((lossGate ((E.lossBatch true b s.model).divInt (E.wc b)) = false ∧
        s' = { s with
          wc := E.wc b
          ws := E.ws b
          nSkipped := s.nSkipped + 1
          hist := s.hist ++ [{ step := s.step, usable := false, update := none }] }) ∨
     (lossGate ((E.lossBatch true b s.model).divInt (E.wc b)) = true ∧
        s.gradStep + 1 ≠ s.trainer.updateStep ∧
        s' = { s with
          wc := E.wc b
          ws := E.ws b
          model := applyBackward E b s.model
          gradStep := s.gradStep + 1
          loss := s.loss.add (E.lossBatch true b s.model)
          wordCount := s.wordCount + E.wc b
          wordCountTotal := s.wordCountTotal + E.wc b
          batchCountTotal := s.batchCountTotal + E.ws b
          hist := s.hist ++ [{ step := s.step, usable := true, update := none }] }) ∨
     (lossGate ((E.lossBatch true b s.model).divInt (E.wc b)) = true ∧
        s.gradStep + 1 = s.trainer.updateStep ∧
        ∃ r, Update F s.trainer (applyBackward E b s.model)
              (scheduleLR F s.trainer.lrate s.trainer.nwarmup s.step) = some r ∧
        s' = { s with
          wc := E.wc b
          ws := E.ws b
          model := r.2
          trainer := r.1
          lr := scheduleLR F s.trainer.lrate s.trainer.nwarmup s.step
          gradStep := 0
          validStep := s.validStep + 1
          loss := s.loss.add (E.lossBatch true b s.model)
          wordCount := s.wordCount + E.wc b
          wordCountTotal := s.wordCountTotal + E.wc b
          batchCountTotal := s.batchCountTotal + E.ws b
          hist := s.hist ++ [StepRec.mk s.step true
            (some (scheduleLR F s.trainer.lrate s.trainer.nwarmup s.step))] })) := by
  unfold trainStep at h
  simp only at h
  split at h
  · rename_i ho
    split at h
    · rename_i hm
      refine ⟨ho, hm, ?_⟩
      split at h
      · rename_i hg
        split at h
        · rename_i hu
          right; right
          split at h
          · cases h
          · rename_i r hr
            cases h
            exact ⟨hg, hu, r, hr, rfl⟩
        · rename_i hu
          right; left
          cases h
          exact ⟨hg, hu, rfl⟩
      · rename_i hg
        left
        cases h
        exact ⟨by simpa using hg, rfl⟩
    · cases h
  · cases h

theorem MakeCheckpoint_eq (E : Collab α B) (t : Trainer α) (model : Model α)
    (validFN : Option (Nat → List B)) (modelFN label : String) (r : Trainer α × Snapshot)
    (h : MakeCheckpoint E t model validFN modelFN label = some r) :
    r.1 = { t with maxCheckpoint :=
              if t.maxCheckpoint - 1 = 0 then t.cfg.maxCheckpoint else t.maxCheckpoint - 1 } ∧
    r.2 = { label := label, id := t.cfg.maxCheckpoint - t.maxCheckpoint,
            fn := modelFN ++ "." ++ label ++ "." ++ fmt03d (t.cfg.maxCheckpoint - t.maxCheckpoint) } := by
  unfold MakeCheckpoint at h
  simp only [Trainer.Init] at h
  split at h
  · cases h
    constructor
    · split <;> simp_all
    · rfl
  · split at h
    · cases h
    · cases h
      constructor
      · split <;> simp_all
      · rfl

theorem batchLoop_cases (F : CMath α) (E : Collab α B) (validFN : Option (Nat → List B))
    (modelFN : String) (s s' : TrainState α B) (h : batchLoop F E validFN modelFN s = some s') :
    (s.batchLoader.buf = [] ∧ s' = s) ∨
    ∃ b buf s1, s.batchLoader.buf = b :: buf ∧
      trainStep F E { s with batchLoader := { s.batchLoader with buf := buf } } b = some s1 ∧
      ((s1.step + 1 ≥ s1.trainer.nstep ∧ s' = { s1 with step := s1.step + 1, isEnd := true }) ∨
       (s1.step + 1 < s1.trainer.nstep ∧ ¬ s1.trainer.nStepCheckpoint > 0 ∧
          s' = { s1 with step := s1.step + 1 }) ∨
       (s1.step + 1 < s1.trainer.nstep ∧ s1.trainer.nStepCheckpoint > 0 ∧
          s1.nStepCheck + 1 < s1.trainer.nStepCheckpoint ∧
          s' = { s1 with step := s1.step + 1, nStepCheck := s1.nStepCheck + 1 }) ∨
       (s1.step + 1 < s1.trainer.nstep ∧ s1.trainer.nStepCheckpoint > 0 ∧
          s1.nStepCheck + 1 ≥ s1.trainer.nStepCheckpoint ∧
          ∃ r, MakeCheckpoint E s1.trainer s1.model validFN modelFN "step" = some r ∧
            s' = { s1 with
              step := s1.step + 1
              trainer := r.1
              dumps := s1.dumps ++ [r.2]
              nStepCheck := 0
              nCheckpoint := s1.nCheckpoint + 1 })) := by
  unfold batchLoop at h
  split at h
  · rename_i hb
    cases h
    exact Or.inl ⟨hb, rfl⟩
  · rename_i b buf hb
    right
    split at h
    · cases h
    · rename_i s1 h1
      refine ⟨b, buf, s1, hb, h1, ?_⟩
      simp only at h
      split at h
      · rename_i hn
        cases h
        exact Or.inl ⟨hn, rfl⟩
      · rename_i hn
        have hn' : s1.step + 1 < s1.trainer.nstep := by omega
        split at h
        · rename_i hN
          split at h
          · rename_i hc
            split at h
            · cases h
            · rename_i r hr
              cases h
              exact Or.inr (Or.inr (Or.inr ⟨hn', hN, hc, r, hr, rfl⟩))
          · rename_i hc
            cases h
            exact Or.inr (Or.inr (Or.inl ⟨hn', hN, by omega, rfl⟩))
        · rename_i hN
          cases h
          exact Or.inr (Or.inl ⟨hn', hN, rfl⟩)

theorem epochLoop_induct (F : CMath α) (E : Collab α B) (validFN : Option (Nat → List B))
    (modelFN : String) (P : TrainState α B → Prop)
    (hB : ∀ s s', P s → s.isEnd = false →
      batchLoop F E validFN modelFN
        { s with wordCount := 0, loss := .fin 0, batchLoader := s.batchLoader.ClearBuf } = some s' →
      P s')
    (hC : ∀ s r, P s → s.isEnd = false →
      MakeCheckpoint E s.trainer s.model validFN modelFN "epoch" = some r →
      P { s with trainer := r.1, dumps := s.dumps ++ [r.2], epoch := s.epoch + 1 })
    (hE : ∀ s, P s → s.isEnd = false → P { s with epoch := s.epoch + 1 }) :
    ∀ n s s', P s → s.isEnd = false → epochLoop F E validFN modelFN n s = some s' → P s' := by
  intro n
  induction n with
  | zero =>
    intro s s' hs _ h
    simp only [epochLoop, Option.some.injEq] at h
    subst h
    exact hs
  | succ n ih =>
    intro s s' hs he h
    simp only [epochLoop] at h
    split at h
    · cases h
    · rename_i s2 h2
      have hP2 := hB s s2 hs he h2
      split at h
      · cases h
        exact hP2
      · rename_i hend
        have hend' : s2.isEnd = false := by simpa using hend
        split at h
        · split at h
          · cases h
          · rename_i r hr
            exact ih _ s' (hC s2 r hP2 hend' hr) hend' h
        · exact ih _ s' (hE s2 hP2 hend') hend' h

theorem succ_ediv_emod (c U : Int) (hU : 1 ≤ U) :
    (c % U + 1 = U → (c + 1) % U = 0 ∧ (c + 1) / U = c / U + 1) ∧
    (c % U + 1 ≠ U → (c + 1) % U = c % U + 1 ∧ (c + 1) / U = c / U) := by
  have h0 : 0 < U := by omega
  have h1 := Int.emod_add_ediv c U
  have h2 := Int.emod_nonneg c (by omega : U ≠ 0)
  have h3 := Int.emod_lt_of_pos c h0
  constructor
  · intro h
    have := (Int.ediv_emod_unique (a := c + 1) (r := 0) (q := c / U + 1) h0).mpr
      ⟨by rw [mul_add]; linarith, le_refl _, h0⟩
    exact ⟨this.2, this.1⟩
  · intro h
    have := (Int.ediv_emod_unique (a := c + 1) (r := c % U + 1) (q := c / U) h0).mpr
      ⟨by linarith, by omega, by omega⟩
    exact ⟨this.2, this.1⟩
end LoopLemmas

section BackwardLemmas
variable {α B : Type}

end BackwardLemmas

section HistoryLemmas
variable {α : Type}

theorem hist_forall_append {α : Type} (P : Nat → StepRec α → Prop) (h : List (StepRec α))
    (r : StepRec α) (hh : ∀ i rec, h[i]? = some rec → P i rec) (hr : P h.length r) :
    ∀ i rec, (h ++ [r])[i]? = some rec → P i rec := by
  intro i rec hi
  rcases Nat.lt_trichotomy i h.length with hlt | heq | hgt
  · rw [List.getElem?_append_left hlt] at hi
    exact hh i rec hi
  · subst heq
    simp at hi
    subst hi
    exact hr
  · rw [List.getElem?_eq_none (by simp; omega)] at hi
    cases hi

end HistoryLemmas

section InvariantLemmas
variable {α B : Type} [LinearOrderedField α]

theorem trainStep_frame (F : CMath α) (E : Collab α B) (s s' : TrainState α B) (b : B)
    (h : trainStep F E s b = some s') :
    s'.step = s.step ∧ s'.nStepCheck = s.nStepCheck ∧ s'.nCheckpoint = s.nCheckpoint ∧
    s'.dumps = s.dumps ∧ s'.isEnd = s.isEnd ∧ s'.batchLoader = s.batchLoader ∧
    s'.epoch = s.epoch ∧ s.trainer.sameConfig s'.trainer ∧
    s'.hist.length = s.hist.length + 1 := by
  obtain ⟨_, _, h1 | h1 | h1⟩ := trainStep_cases F E s s' b h
  · obtain ⟨_, rfl⟩ := h1
    simp [Trainer.sameConfig_refl]
  · obtain ⟨_, _, rfl⟩ := h1
    simp [Trainer.sameConfig_refl]
  · obtain ⟨_, _, r, hr, rfl⟩ := h1
    simp [(Update_sameConfig F _ _ _ r hr).1]

theorem StepCkptInv_batchLoop (F : CMath α) (E : Collab α B) (validFN : Option (Nat → List B))
    (modelFN : String) (N : Int) (hN : 0 < N) (s s' : TrainState α B)
    (hs : StepCkptInv N s) (he : s.isEnd = false)
    (h : batchLoop F E validFN modelFN s = some s') : StepCkptInv N s' := by
  obtain ⟨i1, i2, i3, i4, _⟩ := hs
  obtain ⟨i5, i6⟩ := i4 he
  rcases batchLoop_cases F E validFN modelFN s s' h with ⟨_, rfl⟩ | ⟨b, buf, s1, _, ht, hc⟩
  · exact ⟨i1, i2, i3, fun _ => ⟨i5, i6⟩, fun h => by rw [he] at h; cases h⟩
  · obtain ⟨f1, f2, f3, f4, f5, _, _, f8, f9⟩ := trainStep_frame F E _ s1 b ht
    simp only at f1 f2 f3 f4 f5 f8 f9
    have hN1 : s1.trainer.nStepCheckpoint = N := by
      have := congrArg Trainer.nStepCheckpoint f8
      simpa [i1] using this
    have hmod := succ_ediv_emod s.step N (by omega)
    have hlt := Int.emod_lt_of_pos s.step hN
    rcases hc with ⟨_, rfl⟩ | ⟨_, hno, rfl⟩ | ⟨_, _, hc, rfl⟩ | ⟨_, _, hc, r, hr, rfl⟩
    · refine ⟨hN1, ?_, ?_, ?_, ?_⟩
      · simp [f1, f9, i2]
      · simp [f3, f4, i3]
      · intro h; simp at h
      · intro _; simp [f1, f3, i6]
    · exact absurd (hN1 ▸ hN) hno
    · rw [hN1, f2, i5] at hc
      obtain ⟨m1, m2⟩ := hmod.2 (by omega)
      refine ⟨hN1, ?_, ?_, ?_, ?_⟩
      · simp [f1, f9, i2]
      · simp [f3, f4, i3]
      · intro _; simp [f1, f2, f3, i5, i6, m1, m2]
      · intro h; simp [f5, he] at h
    · rw [hN1, f2, i5] at hc
      obtain ⟨m1, m2⟩ := hmod.1 (by omega)
      obtain ⟨hr1, hr2⟩ := MakeCheckpoint_eq E _ _ _ _ _ r hr
      refine ⟨?_, ?_, ?_, ?_, ?_⟩
      · simp [hr1, hN1]
      · simp [f1, f9, i2]
      · simp [f3, f4, i3, hr2, withLabel, List.filter_append]
      · intro _; simp [f1, f3, i6, m1, m2]
      · intro h; simp [f5, he] at h

theorem RotationInv_checkpoint (E : Collab α B) (validFN : Option (Nat → List B))
    (modelFN label : String) (K : Int) (t : Trainer α) (model : Model α) (dumps : List Snapshot)
    (hl : label = "step" ∨ label = "epoch")
    (h1 : t.cfg.maxCheckpoint = K) (h2 : 1 ≤ t.maxCheckpoint) (h3 : t.maxCheckpoint ≤ K)
    (h4 : ∀ d ∈ dumps, (d.label = "step" ∨ d.label = "epoch") ∧ 0 ≤ d.id ∧ d.id < K ∧
      d.fn = modelFN ++ "." ++ d.label ++ "." ++ fmt03d d.id)
    (r : Trainer α × Snapshot) (hr : MakeCheckpoint E t model validFN modelFN label = some r) :
    r.1.cfg.maxCheckpoint = K ∧ 1 ≤ r.1.maxCheckpoint ∧ r.1.maxCheckpoint ≤ K ∧
    ∀ d ∈ dumps ++ [r.2], (d.label = "step" ∨ d.label = "epoch") ∧ 0 ≤ d.id ∧ d.id < K ∧
      d.fn = modelFN ++ "." ++ d.label ++ "." ++ fmt03d d.id := by
  obtain ⟨hr1, hr2⟩ := MakeCheckpoint_eq E _ _ _ _ _ r hr
  refine ⟨by simp [hr1, h1], ?_, ?_, ?_⟩
  · rw [hr1]
    simp only
    split <;> omega
  · rw [hr1]
    simp only
    split <;> omega
  · intro d hd
    rcases List.mem_append.mp hd with hd | hd
    · exact h4 d hd
    · simp at hd
      subst hd
      rw [hr2]
      exact ⟨hl, by simp; omega, by simp; omega, by simp [h1]⟩

theorem StepCkptInv_Train (F : CMath α) (E : Collab α B) (t : Trainer α) (fn : Nat → List B)
    (validFN : Option (Nat → List B)) (modelFN : String) (model : Model α)
    (hN : 0 < t.nStepCheckpoint) (r : TrainState α B)
    (h : Train F E t fn validFN modelFN model = some r) : StepCkptInv t.nStepCheckpoint r := by
  simp only [Train, Option.map_eq_some'] at h
  obtain ⟨s, hs, rfl⟩ := h
  have hinit : StepCkptInv t.nStepCheckpoint (Train.init t fn model : TrainState α B) := by
    refine ⟨?_, ?_, ?_, ?_, ?_⟩ <;> simp [Train.init, PrepareModel, withLabel]
  have := epochLoop_induct F E validFN modelFN (StepCkptInv t.nStepCheckpoint)
    (fun s s' hP he hb => by
      refine StepCkptInv_batchLoop F E validFN modelFN _ hN _ s' ?_ ?_ hb
      · exact hP
      · exact he)
    (fun s r hP he hr => by
      obtain ⟨hr1, hr2⟩ := MakeCheckpoint_eq E _ _ _ _ _ r hr
      obtain ⟨a, b, c, d, e⟩ := hP
      refine ⟨?_, b, ?_, d, e⟩
      · simp only [hr1]
        exact a
      · simp only [c, hr2, withLabel, List.filter_append]
        simp)
    (fun s hP _ => hP)
    _ _ s hinit rfl hs
  exact this

theorem RotationInv_batchLoop (F : CMath α) (E : Collab α B) (validFN : Option (Nat → List B))
    (modelFN : String) (K : Int) (s0 s s' : TrainState α B)
    (hs : RotationInv K modelFN s0) (h0 : s.trainer = s0.trainer ∧ s.dumps = s0.dumps)
    (h : batchLoop F E validFN modelFN s = some s') : RotationInv K modelFN s' := by
  have hs1 : RotationInv K modelFN s := by
    unfold RotationInv
    rw [h0.1, h0.2]
    exact hs
  rcases batchLoop_cases F E validFN modelFN s s' h with ⟨_, rfl⟩ | ⟨b, buf, s1, _, ht, hc⟩
  · exact hs1
  · obtain ⟨_, _, _, f4, _, _, _, f8, _⟩ := trainStep_frame F E _ s1 b ht
    simp only at f4 f8
    have h1 : RotationInv K modelFN s1 := by
      obtain ⟨a, b, c, d⟩ := hs1
      have e1 := congrArg Trainer.cfg f8
      have e2 := congrArg Trainer.maxCheckpoint f8
      simp only at e1 e2
      exact ⟨by rw [e1]; exact a, by rw [e2]; exact b, by rw [e2]; exact c, by rw [f4]; exact d⟩
    rcases hc with ⟨_, rfl⟩ | ⟨_, _, rfl⟩ | ⟨_, _, _, rfl⟩ | ⟨_, _, _, r, hr, rfl⟩
    · exact h1
    · exact h1
    · exact h1
    · obtain ⟨a, b, c, d⟩ := h1
      exact RotationInv_checkpoint E validFN modelFN "step" K _ _ _ (Or.inl rfl) a b c d r hr

theorem RotationInv_Train (F : CMath α) (E : Collab α B) (t : Trainer α) (fn : Nat → List B)
    (validFN : Option (Nat → List B)) (modelFN : String) (model : Model α) (K : Int)
    (hK : 1 ≤ K) (h1 : t.cfg.maxCheckpoint = K) (h2 : t.maxCheckpoint = K) (r : TrainState α B)
    (h : Train F E t fn validFN modelFN model = some r) : RotationInv K modelFN r := by
  simp only [Train, Option.map_eq_some'] at h
  obtain ⟨s, hs, rfl⟩ := h
  have hinit : RotationInv K modelFN (Train.init t fn model : TrainState α B) := by
    refine ⟨?_, ?_, ?_, ?_⟩ <;> simp [Train.init, PrepareModel, h1, h2, hK]
  have := epochLoop_induct F E validFN modelFN (RotationInv K modelFN)
    (fun s s' hP _ hb => by
      refine RotationInv_batchLoop F E validFN modelFN K s _ s' hP ?_ hb
      exact ⟨rfl, rfl⟩)
    (fun s r hP _ hr => by
      obtain ⟨a, b, c, d⟩ := hP
      exact RotationInv_checkpoint E validFN modelFN "epoch" K _ _ _ (Or.inr rfl) a b c d r hr)
    (fun s hP _ => hP)
    _ _ s hinit rfl hs
  exact this

theorem MakeCheckpoints_ids (E : Collab α B) (validFN : Option (Nat → List B)) (modelFN : String)
    (K : Int) (hK : 1 ≤ K) :
    ∀ (calls : List (Model α × String)) (t : Trainer α) (j : Int) (r : Trainer α × List Snapshot),
      t.cfg.maxCheckpoint = K → t.maxCheckpoint = K - j → 0 ≤ j → j < K →
      MakeCheckpoints E validFN modelFN t calls = some r →
      r.2.length = calls.length ∧
      (∀ (n : Nat) (d : Snapshot), r.2[n]? = some d → d.id = (j + (n : Int)) % K ∧
        d.fn = modelFN ++ "." ++ d.label ++ "." ++ fmt03d d.id ∧
        (calls[n]?).map Prod.snd = some d.label) ∧
      r.1.cfg.maxCheckpoint = K ∧
      r.1.maxCheckpoint = K - (j + (calls.length : Int)) % K := by
  intro calls
  induction calls with
  | nil =>
    intro t j r h1 h2 h3 h4 h
    simp only [MakeCheckpoints, Option.some.injEq] at h
    subst h
    refine ⟨rfl, ?_, h1, ?_⟩
    · intro n d hd
      simp at hd
    · simp [h2, Int.emod_eq_of_lt h3 h4]
  | cons c cs ih =>
    intro t j r h1 h2 h3 h4 h
    simp only [MakeCheckpoints] at h
    cases hr1 : MakeCheckpoint E t c.1 validFN modelFN c.2 with
    | none => rw [hr1] at h; cases h
    | some r1 =>
      rw [hr1] at h
      simp only at h
      cases hr2 : MakeCheckpoints E validFN modelFN r1.1 cs with
      | none => rw [hr2] at h; cases h
      | some r2 =>
        rw [hr2] at h
        cases h
        obtain ⟨e1, e2⟩ := MakeCheckpoint_eq E _ _ _ _ _ r1 hr1
        have hmod := succ_ediv_emod j K hK
        have hj : j % K = j := Int.emod_eq_of_lt h3 h4
        have hc1 : r1.1.cfg.maxCheckpoint = K := by rw [e1]; exact h1
        have hm1 : r1.1.maxCheckpoint = K - (j + 1) % K := by
          rw [e1]
          simp only [h1, h2]
          by_cases hjk : j + 1 = K
          · rw [(hmod.1 (by omega)).1]
            simp [show K - j - 1 = 0 by omega]
          · rw [(hmod.2 (by omega)).1, hj]
            rw [if_neg (by omega)]
            omega
        have hlt : (j + 1) % K < K := Int.emod_lt_of_pos _ (by omega)
        have hge : 0 ≤ (j + 1) % K := Int.emod_nonneg _ (by omega)
        obtain ⟨a1, a2, a3, a4⟩ := ih r1.1 ((j + 1) % K) r2 hc1 hm1 hge hlt hr2
        refine ⟨by simp [a1], ?_, a3, ?_⟩
        · intro n d hd
          cases n with
          | zero =>
            simp at hd
            subst hd
            rw [e2]
            simp [h1, h2, hj]
          | succ n =>
            simp at hd
            obtain ⟨b1, b2, b3⟩ := a2 n d hd
            refine ⟨?_, b2, by simpa using b3⟩
            rw [b1]
            push_cast
            rw [Int.emod_add_emod]
            congr 1
            ring
        · rw [a4]
          simp only [List.length_cons]
          push_cast
          rw [Int.emod_add_emod]
          congr 2
          ring
/-- One pass of the batch loop on a non-empty loader processes exactly one batch. -/
theorem batchLoop_one_step (F : CMath α) (E : Collab α B) (validFN : Option (Nat → List B))
    (modelFN : String) (s s' : TrainState α B) (hne : s.batchLoader.buf ≠ [])
    (h : batchLoop F E validFN modelFN s = some s') :
    s'.step = s.step + 1 ∧ s'.trainer.nstep = s.trainer.nstep ∧
    s'.batchLoader.file = s.batchLoader.file ∧
    s'.batchLoader.buf.length + 1 = s.batchLoader.buf.length ∧
    (s'.isEnd = true ↔ s.isEnd = true ∨ s.step + 1 ≥ s.trainer.nstep) := by
  rcases batchLoop_cases F E validFN modelFN s s' h with ⟨he, _⟩ | ⟨b, buf, s1, hb, ht, hc⟩
  · exact absurd he hne
  · obtain ⟨f1, _, _, _, f5, f6, _, f8, _⟩ := trainStep_frame F E _ s1 b ht
    simp only at f1 f5 f6 f8
    have hn : s1.trainer.nstep = s.trainer.nstep := by
      have := congrArg Trainer.nstep f8
      simpa using this
    rcases hc with ⟨h1, rfl⟩ | ⟨h1, _, rfl⟩ | ⟨h1, _, _, rfl⟩ | ⟨h1, _, _, r, hr, rfl⟩
    · simp [f1, hn, f6, hb]
      right
      rw [← hn, ← f1]
      exact h1
    · simp [f1, hn, f6, hb, f5]
      intro h2
      rw [f1, hn] at h1
      omega
    · simp [f1, hn, f6, hb, f5]
      intro h2
      rw [f1, hn] at h1
      omega
    · obtain ⟨hr1, _⟩ := MakeCheckpoint_eq E _ _ _ _ _ r hr
      simp [f1, hn, f6, hb, f5, hr1]
      intro h2
      rw [f1, hn] at h1
      omega

theorem epochLoop_step_count (F : CMath α) (E : Collab α B) (validFN : Option (Nat → List B))
    (modelFN : String) :
    ∀ (n : Nat) (s s' : TrainState α B), s.isEnd = false → s.step < s.trainer.nstep →
      (∀ k, s.batchLoader.file k ≠ []) →
      epochLoop F E validFN modelFN n s = some s' →
      s'.step = min s.trainer.nstep (s.step + n) := by
  intro n
  induction n with
  | zero =>
    intro s s' _ hlt _ h
    simp only [epochLoop, Option.some.injEq] at h
    subst h
    simp
    omega
  | succ n ih =>
    intro s s' he hlt hf h
    simp only [epochLoop] at h
    split at h
    · cases h
    · rename_i s2 h2
      obtain ⟨g1, g2, g3, _, g5⟩ := batchLoop_one_step F E validFN modelFN _ s2
        (by simpa [BatchLoader.ClearBuf] using hf (s.batchLoader.pass + 1)) h2
      simp only [BatchLoader.ClearBuf] at g1 g2 g3 g5
      split at h
      · rename_i hend
        cases h
        have := g5.mp hend
        rw [he] at this
        simp at this
        rw [g1]
        push_cast
        omega
      · rename_i hend
        have hnot : ¬ (s.step + 1 ≥ s.trainer.nstep) := fun hx => hend (g5.mpr (Or.inr hx))
        have hend' : s2.isEnd = false := by simpa using hend
        split at h
        · split at h
          · cases h
          · rename_i r hr
            obtain ⟨hr1, _⟩ := MakeCheckpoint_eq E _ _ _ _ _ r hr
            have := ih _ s' (by exact hend') (by simp [hr1, g1, g2]; omega)
              (by simpa [g3] using hf) h
            simp only [hr1, g1, g2] at this
            rw [this]
            push_cast
            congr 1
            ring
        · have := ih _ s' (by exact hend') (by simp [g1, g2]; omega)
            (by simpa [g3] using hf) h
          simp only [g1, g2] at this
          rw [this]
          push_cast
          congr 1
          ring

/-- With a loader that yields at least one batch on every pass and `nstep ≥ 1`,
a run of `Train` that returns has processed `min(nstep, nepoch)` batches: one
per epoch, whatever the number of batches of a pass. -/
theorem Train_step_count (F : CMath α) (E : Collab α B) (t : Trainer α) (fn : Nat → List B)
    (validFN : Option (Nat → List B)) (modelFN : String) (model : Model α)
    (hf : ∀ k, fn k ≠ []) (hn : 1 ≤ t.nstep) (r : TrainState α B)
    (h : Train F E t fn validFN modelFN model = some r) :
    r.step = min t.nstep (t.nepoch.toNat : Int) := by
  simp only [Train, Option.map_eq_some'] at h
  obtain ⟨s, hs, rfl⟩ := h
  have := epochLoop_step_count F E validFN modelFN _ _ s rfl
    (by simp [Train.init, PrepareModel]; omega)
    (by simpa [Train.init, BatchLoader.Init] using hf) hs
  simpa [Train.init, PrepareModel] using this

theorem ScheduleInv_batchLoop (F : CMath α) (E : Collab α B) (validFN : Option (Nat → List B))
    (modelFN : String) (L : α) (W : Int) (s0 s s' : TrainState α B)
    (hs : ScheduleInv F L W s0)
    (h0 : s.trainer = s0.trainer ∧ s.step = s0.step ∧ s.hist = s0.hist)
    (h : batchLoop F E validFN modelFN s = some s') : ScheduleInv F L W s' := by
  have hs1 : ScheduleInv F L W s := by
    obtain ⟨a, b, c⟩ := h0
    unfold ScheduleInv
    rw [a, b, c]
    exact hs
  obtain ⟨i1, i2, i3, i4⟩ := hs1
  rcases batchLoop_cases F E validFN modelFN s s' h with ⟨_, rfl⟩ | ⟨b, buf, s1, _, ht, hc⟩
  · exact ⟨i1, i2, i3, i4⟩
  · have h1 : s1.trainer.lrate = L ∧ s1.trainer.nwarmup = W ∧
        s1.step + 1 = (s1.hist.length : Int) ∧
        ∀ (i : Nat) (rec : StepRec α), s1.hist[i]? = some rec →
          rec.step = (i : Int) ∧ ∀ lr, rec.update = some lr → lr = scheduleLR F L W (i : Int) := by
      obtain ⟨_, _, hcase⟩ := trainStep_cases F E _ s1 b ht
      simp only at hcase
      rcases hcase with ⟨_, rfl⟩ | ⟨_, _, rfl⟩ | ⟨_, _, r, hr, rfl⟩
      · refine ⟨i1, i2, by simp [i3], ?_⟩
        exact hist_forall_append _ s.hist _ i4 ⟨by simp [i3], fun lr h => by cases h⟩
      · refine ⟨i1, i2, by simp [i3], ?_⟩
        exact hist_forall_append _ s.hist _ i4 ⟨by simp [i3], fun lr h => by cases h⟩
      · have hsc := (Update_sameConfig F _ _ _ r hr).1
        have e1 := congrArg Trainer.lrate hsc
        have e2 := congrArg Trainer.nwarmup hsc
        simp only at e1 e2
        refine ⟨by rw [e1]; exact i1, by rw [e2]; exact i2, by simp [i3], ?_⟩
        refine hist_forall_append _ s.hist _ i4 ⟨by simp [i3], fun lr h => ?_⟩
        simp only [Option.some.injEq] at h
        rw [← h, i1, i2, i3]
    obtain ⟨a, b, c, d⟩ := h1
    rcases hc with ⟨_, rfl⟩ | ⟨_, _, rfl⟩ | ⟨_, _, _, rfl⟩ | ⟨_, _, _, r, hr, rfl⟩
    · exact ⟨a, b, c, d⟩
    · exact ⟨a, b, c, d⟩
    · exact ⟨a, b, c, d⟩
    · obtain ⟨hr1, _⟩ := MakeCheckpoint_eq E _ _ _ _ _ r hr
      refine ⟨?_, ?_, c, d⟩
      · simp only [hr1]; exact a
      · simp only [hr1]; exact b

theorem ScheduleInv_Train (F : CMath α) (E : Collab α B) (t : Trainer α) (fn : Nat → List B)
    (validFN : Option (Nat → List B)) (modelFN : String) (model : Model α) (r : TrainState α B)
    (h : Train F E t fn validFN modelFN model = some r) :
    ScheduleInv F t.lrate t.nwarmup r := by
  simp only [Train, Option.map_eq_some'] at h
  obtain ⟨s, hs, rfl⟩ := h
  have hinit : ScheduleInv F t.lrate t.nwarmup (Train.init t fn model : TrainState α B) := by
    refine ⟨?_, ?_, ?_, ?_⟩
    · simp [Train.init, PrepareModel]
    · simp [Train.init, PrepareModel]
    · simp [Train.init]
    · intro i rec hi
      simp [Train.init] at hi
  have := epochLoop_induct F E validFN modelFN (ScheduleInv F t.lrate t.nwarmup)
    (fun s s' hP _ hb => by
      refine ScheduleInv_batchLoop F E validFN modelFN _ _ s _ s' hP ?_ hb
      exact ⟨rfl, rfl, rfl⟩)
    (fun s r hP _ hr => by
      obtain ⟨hr1, _⟩ := MakeCheckpoint_eq E _ _ _ _ _ r hr
      obtain ⟨a, b, c, d⟩ := hP
      refine ⟨?_, ?_, c, d⟩
      · simp only [hr1]; exact a
      · simp only [hr1]; exact b)
    (fun s hP _ => hP)
    _ _ s hinit rfl hs
  exact this

theorem adamBranch_some (F : CMath α) (t : Trainer α) (lr : α) (i : Nat) (para g m v : List α)
    (hm : t.moments[i]? = some m) (hv : t.moments2nd[i]? = some v)
    (hml : m.length = g.length) (hvl : v.length = g.length) (hpl : g.length = para.length) :
    ∃ a, adamBranch F t lr i para g = some a ∧ t.sameConfig a.1 ∧
      (∃ m', a.1.moments = t.moments.set i m') ∧ (∃ v', a.1.moments2nd = t.moments2nd.set i v') := by
  simp only [adamBranch, hm, hv, Option.bind_eq_bind, Option.some_bind, Option.pure_def]
  rw [_Sum_of_length_eq _ _ _ (by simp [_ScaleAndShiftMe, hml])]
  simp only [Option.some_bind, _Multiply, hvl, and_self, if_true]
  simp only [_Div, _Power, _ScaleAndShiftMe, List.length_map, List.length_zipWith, hml, hvl,
    min_self, and_self, if_true, Option.some_bind]
  rw [_Sum_of_length_eq _ _ _ (by simp [hml, hvl, hpl])]
  simp only [Option.some_bind]
  exact ⟨_, rfl, rfl, ⟨_, rfl⟩, ⟨_, rfl⟩⟩

theorem UpdateAt_spec (F : CMath α) (lr : α) (t0 tk : Trainer α) (cur : List (Para α)) (k : Nat)
    (p : Para α) (hsc : t0.sameConfig tk) (hp : cur[k]? = some p)
    (hmk : tk.moments[k]? = t0.moments[k]?) (hvk : tk.moments2nd[k]? = t0.moments2nd[k]?)
    (hw : Para.wellShaped t0 k p) :
    ∃ tk' cur', UpdateAt F lr (tk, cur) k = some (tk', cur') ∧ t0.sameConfig tk' ∧
      cur'.length = cur.length ∧
      (∀ j, j ≠ k → cur'[j]? = cur[j]? ∧ tk'.moments[j]? = tk.moments[j]? ∧
        tk'.moments2nd[j]? = tk.moments2nd[j]?) ∧
      UpdatedAt F lr t0 k p cur'[k]? tk'.moments[k]? tk'.moments2nd[k]? := by
  have hk : k < cur.length := by
    by_contra h
    rw [List.getElem?_eq_none (by omega)] at hp
    cases hp
  have hA : tk.useAdam = t0.useAdam := by
    have := congrArg Trainer.useAdam hsc
    simpa using this
  cases hg : p.grad with
  | none =>
    refine ⟨tk, cur, ?_, hsc, rfl, fun j _ => ⟨rfl, rfl, rfl⟩, ?_⟩
    · simp [UpdateAt, hp, hg]
    · simp [UpdatedAt, hg, hp, hmk, hvk]
  | some g =>
    obtain ⟨hgl, hadam⟩ := hw g hg
    cases hU : t0.useAdam with
    | true =>
      obtain ⟨m, v, hm, hv, hml, hvl⟩ := hadam hU
      obtain ⟨a, ha, hasc, ⟨m', hm'⟩, ⟨v', hv'⟩⟩ := adamBranch_some F tk lr k p.val g m v
        (by rw [hmk]; exact hm) (by rw [hvk]; exact hv) hml hvl hgl
      refine ⟨a.1, cur.set k { val := a.2, grad := some (SetZeroAll g) }, ?_,
        Trainer.sameConfig_trans hsc hasc, by simp, ?_, ?_⟩
      · simp [UpdateAt, hp, hg, hA, hU, ha]
      · intro j hj
        refine ⟨List.getElem?_set_ne (Ne.symm hj), ?_, ?_⟩
        · rw [hm', List.getElem?_set_ne (Ne.symm hj)]
        · rw [hv', List.getElem?_set_ne (Ne.symm hj)]
      · simp only [UpdatedAt, hg, hU, if_true]
        exact ⟨tk, a, hsc, hmk, hvk, ha, by simp [List.getElem?_set, hk], rfl, rfl⟩
    | false =>
      have hs := UpdateAt_sgd F lr tk cur k p (by rw [hA]; exact hU) hp
        (fun g' hg' => by rw [hg] at hg'; cases hg'; exact hgl)
      refine ⟨tk, cur.set k (specSGD lr p), hs, hsc, by simp,
        fun j hj => ⟨List.getElem?_set_ne (Ne.symm hj), rfl, rfl⟩, ?_⟩
      simp only [UpdatedAt, hg, hU]
      simp [List.getElem?_set, hk, hmk, hvk]

theorem Update_fold_spec (F : CMath α) (lr : α) (t : Trainer α) (ws : List (Para α))
    (hw : ∀ i p, ws[i]? = some p → Para.wellShaped t i p) :
    ∀ k, k ≤ ws.length → ∃ tk cur,
      (List.range k).foldlM (UpdateAt F lr) (t, ws) = some (tk, cur) ∧
      t.sameConfig tk ∧ cur.length = ws.length ∧
      (∀ j, k ≤ j → cur[j]? = ws[j]? ∧ tk.moments[j]? = t.moments[j]? ∧
        tk.moments2nd[j]? = t.moments2nd[j]?) ∧
      (∀ j p, j < k → ws[j]? = some p →
        UpdatedAt F lr t j p cur[j]? tk.moments[j]? tk.moments2nd[j]?) := by
  intro k
  induction k with
  | zero =>
    intro _
    exact ⟨t, ws, by simp, Trainer.sameConfig_refl t, rfl, fun j _ => ⟨rfl, rfl, rfl⟩,
      fun j p hj _ => by omega⟩
  | succ k ih =>
    intro hk
    obtain ⟨tk, cur, h1, h2, h3, h4, h5⟩ := ih (by omega)
    have hkw : k < ws.length := by omega
    have hpk : ws[k]? = some ws[k] := List.getElem?_eq_getElem hkw
    obtain ⟨c1, c2, c3⟩ := h4 k (le_refl k)
    obtain ⟨tk', cur', e1, e2, e3, e4, e5⟩ := UpdateAt_spec F lr t tk cur k ws[k] h2
      (by rw [c1]; exact hpk) c2 c3 (hw k ws[k] hpk)
    refine ⟨tk', cur', ?_, e2, by rw [e3, h3], ?_, ?_⟩
    · rw [List.range_succ, List.foldlM_append, h1]
      simp only [Option.bind_eq_bind, Option.some_bind, List.foldlM_cons, List.foldlM_nil]
      rw [e1]
      rfl
    · intro j hj
      obtain ⟨a1, a2, a3⟩ := e4 j (by omega)
      obtain ⟨b1, b2, b3⟩ := h4 j (by omega)
      exact ⟨by rw [a1, b1], by rw [a2, b2], by rw [a3, b3]⟩
    · intro j p hj hp
      by_cases hjk : j = k
      · subst hjk
        rw [hpk] at hp
        cases hp
        exact e5
      · obtain ⟨a1, a2, a3⟩ := e4 j hjk
        rw [a1, a2, a3]
        exact h5 j p (by omega) hp

end InvariantLemmas

/-- Snapshots with one label and ids in `0..K-1` have at most `K` file names. -/
theorem card_names_le (K : Int) (modelFN label : String) (l : List Snapshot)
    (h : ∀ d ∈ l, d.label = label ∧ 0 ≤ d.id ∧ d.id < K ∧
      d.fn = modelFN ++ "." ++ d.label ++ "." ++ fmt03d d.id) :
    (((l.map Snapshot.fn).toFinset.card : Nat) : Int) ≤ max K 0 := by
  have hsub : (l.map Snapshot.fn).toFinset ⊆
      (Finset.Ico (0 : Int) K).image (fun id => modelFN ++ "." ++ label ++ "." ++ fmt03d id) := by
    intro x hx
    simp only [List.mem_toFinset, List.mem_map] at hx
    obtain ⟨d, hd, rfl⟩ := hx
    obtain ⟨a, b, c, e⟩ := h d hd
    simp only [Finset.mem_image, Finset.mem_Ico]
    exact ⟨d.id, ⟨b, c⟩, by rw [e, a]⟩
  have h1 := Finset.card_le_card hsub
  have h2 := Finset.card_image_le (s := Finset.Ico (0 : Int) K)
    (f := fun id => modelFN ++ "." ++ label ++ "." ++ fmt03d id)
  have h3 : (Finset.Ico (0 : Int) K).card = (K - 0).toNat := Int.card_Ico 0 K
  have h4 : (((l.map Snapshot.fn).toFinset.card : Nat) : Int) ≤ ((K - 0).toNat : Int) := by
    exact_mod_cast (h1.trans (h2.trans (le_of_eq h3)))
  rw [Int.toNat_eq_max] at h4
  simpa using h4


/-! ## Lemmas on the schedule -/


theorem scheduleLR_warmup (F : CMath ℝ) (lrate : ℝ) (nwarmup step : Int) (h : step < nwarmup) :
    scheduleLR F lrate nwarmup step = 1e-7 + (step : ℝ) * ((lrate - 1e-7) / (nwarmup : ℝ)) := by
  simp [scheduleLR, h]

theorem scheduleLR_decay (F : CMath ℝ) (lrate : ℝ) (nwarmup step : Int) (h : ¬ step < nwarmup) :
    scheduleLR F lrate nwarmup step =
      lrate * F.pow (nwarmup : ℝ) (1 / 2) * F.pow (step : ℝ) (-(1 / 2)) := by
  simp [scheduleLR, h]

theorem scheduleLR_peak (lrate : ℝ) (nwarmup : Int) (hw : 1 ≤ nwarmup) :
    scheduleLR ⟨Real.sqrt, Real.rpow⟩ lrate nwarmup nwarmup = lrate := by
  rw [scheduleLR_decay _ _ _ _ (lt_irrefl _)]
  have hpos : (0 : ℝ) < (nwarmup : ℝ) := by exact_mod_cast (by omega : (0 : Int) < nwarmup)
  have : Real.rpow (nwarmup : ℝ) (1 / 2) * Real.rpow (nwarmup : ℝ) (-(1 / 2)) = 1 := by
    simp only [Real.rpow_eq_pow]
    rw [← Real.rpow_add hpos]
    simp
  rw [mul_assoc, this, mul_one]

theorem scheduleLR_zero (F : CMath ℝ) (lrate : ℝ) (nwarmup : Int) (hw : 1 ≤ nwarmup) :
    scheduleLR F lrate nwarmup 0 = 1e-7 := by
  rw [scheduleLR_warmup F lrate nwarmup 0 (by omega)]
  simp

theorem scheduleLR_decay_pos (lrate : ℝ) (nwarmup step : Int) (hw : 1 ≤ nwarmup)
    (hs : nwarmup ≤ step) :
    scheduleLR ⟨Real.sqrt, Real.rpow⟩ lrate nwarmup step =
      lrate * ((nwarmup : ℝ) ^ ((1 : ℝ) / 2) * (step : ℝ) ^ (-((1 : ℝ) / 2))) ∧
    0 < (nwarmup : ℝ) ^ ((1 : ℝ) / 2) ∧ 0 < (step : ℝ) ^ (-((1 : ℝ) / 2)) := by
  have hpos : (0 : ℝ) < (nwarmup : ℝ) := by exact_mod_cast (by omega : (0 : Int) < nwarmup)
  have hspos : (0 : ℝ) < (step : ℝ) := by exact_mod_cast (by omega : (0 : Int) < step)
  refine ⟨?_, Real.rpow_pos_of_pos hpos _, Real.rpow_pos_of_pos hspos _⟩
  rw [scheduleLR_decay _ _ _ _ (by omega)]
  simp only [Real.rpow_eq_pow]
  ring

theorem rpow_four_neg_half : (4 : ℝ) ^ (-((1 : ℝ) / 2)) = 1 / 2 := by
  rw [Real.rpow_neg (by norm_num), ← Real.sqrt_eq_rpow]
  have : (4 : ℝ) = 2 ^ 2 := by norm_num
  rw [this, Real.sqrt_sq (by norm_num)]
  norm_num

theorem scheduleLR_succ_ne (lrate : ℝ) (nwarmup step : Int) (hw : 1 ≤ nwarmup)
    (hl : 1e-7 < lrate) (hs : 0 ≤ step) :
    scheduleLR ⟨Real.sqrt, Real.rpow⟩ lrate nwarmup step ≠
      scheduleLR ⟨Real.sqrt, Real.rpow⟩ lrate nwarmup (step + 1) := by
  have hpos : (0 : ℝ) < (nwarmup : ℝ) := by exact_mod_cast (by omega : (0 : Int) < nwarmup)
  have hl0 : (0 : ℝ) < lrate := lt_trans (by norm_num) hl
  by_cases h2 : step < nwarmup
  · apply ne_of_lt
    have hd : 0 < lrate - 1e-7 := sub_pos.mpr hl
    have hsl : 0 < (lrate - 1e-7) / (nwarmup : ℝ) := div_pos hd hpos
    rw [scheduleLR_warmup _ _ _ _ h2]
    by_cases h3 : step + 1 < nwarmup
    · rw [scheduleLR_warmup _ _ _ _ h3]
      push_cast
      linarith
    · have he : step + 1 = nwarmup := by omega
      rw [he, scheduleLR_peak _ _ hw]
      have hlt : (step : ℝ) < (nwarmup : ℝ) := by exact_mod_cast h2
      have := mul_lt_mul_of_pos_right hlt hsl
      have h4 : (nwarmup : ℝ) * ((lrate - 1e-7) / (nwarmup : ℝ)) = lrate - 1e-7 := by
        field_simp
      linarith
  · apply ne_of_gt
    have hge : nwarmup ≤ step := by omega
    obtain ⟨e1, p1, _⟩ := scheduleLR_decay_pos lrate nwarmup step hw hge
    obtain ⟨e2, _, _⟩ := scheduleLR_decay_pos lrate nwarmup (step + 1) hw (by omega)
    rw [e1, e2]
    have hspos : (0 : ℝ) < (step : ℝ) := by exact_mod_cast (by omega : (0 : Int) < step)
    have hlt : ((step + 1 : Int) : ℝ) ^ (-((1 : ℝ) / 2)) < (step : ℝ) ^ (-((1 : ℝ) / 2)) := by
      apply Real.rpow_lt_rpow_of_exponent_neg hspos
      · push_cast; linarith
      · norm_num
    exact mul_lt_mul_of_pos_left (mul_lt_mul_of_pos_left hlt p1) hl0

theorem lossGate_false_of {α : Type} [LinearOrderedField α] (l : DVal α)
    (h : l = .nan ∨ (∃ neg, l = .inf neg) ∨ (∃ x, l = .fin x ∧ ¬ x < 1000)) :
    lossGate l = false := by
  rcases h with rfl | ⟨neg, rfl⟩ | ⟨x, rfl, hx⟩
  · simp [lossGate, IsNAN]
  · simp [lossGate, IsINF]
  · have : (1e3 : α) = 1000 := by norm_num
    simp [lossGate, IsNAN, IsINF, DVal.ltConst, this]
    exact le_of_not_lt hx

theorem lossGate_true_of {α : Type} [LinearOrderedField α] (x : α) (hx : x < 1000) :
    lossGate (DVal.fin x) = true := by
  have : (1e3 : α) = 1000 := by norm_num
  simp [lossGate, IsNAN, IsINF, DVal.ltConst, this, hx]

theorem fmt03d_zero : fmt03d 0 = "000" := by decide

/-! ## The claims -/

/-- C1 (evaluation at the failing input): one call of `Update` with the adaptive
optimizer on two parameters with gradients, from `β1^t = β2^t = 1` with
`β1 = 0.9`, `β2 = 0.999`, leaves `β1^t = 0.81 = β1²` and `β2^t = 0.998001 = β2²`:
the powers advance once per parameter.  The first parameter is updated with
`ε = lr·√(1 − β2)/(1 − β1)` and `d' = δ·√(1 − β2)`, the second with
`ε = lr·√(1 − β2²)/(1 − β1²)` and `d' = δ·√(1 − β2²)`. -/
theorem C1_Update_advances_beta_per_parameter (F : CMath ℝ) (lr : ℝ) :
    (Update F (twoParamTrainer ℝ) (twoParamModel ℝ) lr).map
        (fun r => (r.1.adamBeta1T, r.1.adamBeta2T, r.2.params.map Para.val)) =
      some (0.81, 0.998001,
        [[0 - (lr * F.sqrt (1 - 0.999) / (1 - 0.9)) *
            (0.1 / (F.pow 0.001 (1 / 2) + 1e-9 * F.sqrt (1 - 0.999)))],
         [0 - (lr * F.sqrt (1 - 0.998001) / (1 - 0.81)) *
            (0.1 / (F.pow 0.001 (1 / 2) + 1e-9 * F.sqrt (1 - 0.998001)))]]) := by
  simp [Update, UpdateAt, adamBranch, Trainer.Init, List.range, List.range.loop, _Sum, _Multiply,
    _Div, _Power, _ScaleAndShiftMe, SetZeroAll, twoParamTrainer, twoParamModel, adamConfig]
  norm_num
  constructor <;> ring

/-- C2 (evaluation at the failing input): with `nepoch = 2`, `nstep = 10` and a
loader that yields three usable batches on every pass, `Train` ends with
`step = 2`: it ran one training step per epoch, two batches are left in the
loader, and the run did not end on `nstep` (`isEnd` is false).  The claim gives
`min(nstep, nepoch·B) = 6` steps. -/
theorem C2_Train_one_batch_per_epoch :
    (Train ⟨Real.sqrt, Real.rpow⟩ (unitCollab ℝ) (Trainer.Init { plainConfig ℝ with nepoch := 2 })
        (fun _ => [.fin 1, .fin 1, .fin 1]) none "m" (oneParamModel ℝ)).map
      (fun s => (s.step, s.hist.length, s.batchLoader.buf.length, s.isEnd)) =
      some (2, 2, 2, false) := by
  norm_num [Train, epochLoop, batchLoop, trainStep, Train.init, PrepareModel, Trainer.Init,
    plainConfig, unitCollab, oneParamModel, BatchLoader.ClearBuf, BatchLoader.Init, lossGate,
    IsNAN, IsINF, DVal.divInt, DVal.ltConst, Update, UpdateAt, MakeGrad, applyBackward,
    List.range, List.range.loop, _Sum, SetZeroAll]

/-- C4: a pass through the body of the batch loop of `Train` on a batch whose
per-word loss `lossBatch / wc` is NaN, `+∞`, `-∞` or not below 1000 leaves the
model (parameters and gradients), the moments, `β1^t`, `β2^t` and `gradStep` as
they were, and increases `step` and `nSkipped` by exactly one; a pass on a batch
whose per-word loss is finite and below 1000 leaves `nSkipped` as it was. -/
theorem C4_skipped_step_frame {α B : Type} [LinearOrderedField α] (F : CMath α)
    (E : Collab α B) (validFN : Option (Nat → List B)) (modelFN : String)
    (s s' : TrainState α B) (b : B) (buf : List B)
    (hb : s.batchLoader.buf = b :: buf) (h : batchLoop F E validFN modelFN s = some s') :
    (((E.lossBatch true b s.model).divInt (E.wc b) = .nan ∨
      (∃ neg, (E.lossBatch true b s.model).divInt (E.wc b) = .inf neg) ∨
      (∃ x, (E.lossBatch true b s.model).divInt (E.wc b) = .fin x ∧ ¬ x < 1000)) →
      s'.model = s.model ∧ s'.trainer.moments = s.trainer.moments ∧
      s'.trainer.moments2nd = s.trainer.moments2nd ∧
      s'.trainer.adamBeta1T = s.trainer.adamBeta1T ∧
      s'.trainer.adamBeta2T = s.trainer.adamBeta2T ∧
      s'.gradStep = s.gradStep ∧ s'.step = s.step + 1 ∧ s'.nSkipped = s.nSkipped + 1) ∧
    (∀ x, (E.lossBatch true b s.model).divInt (E.wc b) = .fin x → x < 1000 →
      s'.nSkipped = s.nSkipped ∧ s'.step = s.step + 1) := by
  rcases batchLoop_cases F E validFN modelFN s s' h with ⟨he, _⟩ | ⟨b', buf', s1, hb', ht, hc⟩
  · rw [he] at hb; cases hb
  · rw [hb] at hb'
    cases hb'
    obtain ⟨_, _, hcase⟩ := trainStep_cases F E _ s1 b ht
    simp only at hcase
    constructor
    · intro hl
      have hg := lossGate_false_of _ hl
      rcases hcase with ⟨_, rfl⟩ | ⟨hg', _⟩ | ⟨hg', _⟩
      · rcases hc with ⟨_, rfl⟩ | ⟨_, _, rfl⟩ | ⟨_, _, _, rfl⟩ | ⟨_, _, _, r, hr, rfl⟩
        · simp
        · simp
        · simp
        · obtain ⟨hr1, _⟩ := MakeCheckpoint_eq E _ _ _ _ _ r hr
          simp [hr1]
      · rw [hg] at hg'; cases hg'
      · rw [hg] at hg'; cases hg'
    · intro x hx hlt
      have hg : lossGate ((E.lossBatch true b s.model).divInt (E.wc b)) = true := by
        rw [hx]; exact lossGate_true_of x hlt
      rcases hcase with ⟨hg', _⟩ | ⟨_, _, rfl⟩ | ⟨_, _, r0, _, rfl⟩
      · rw [hg] at hg'; cases hg'
      · rcases hc with ⟨_, rfl⟩ | ⟨_, _, rfl⟩ | ⟨_, _, _, rfl⟩ | ⟨_, _, _, r, hr, rfl⟩ <;> simp
      · rcases hc with ⟨_, rfl⟩ | ⟨_, _, rfl⟩ | ⟨_, _, _, rfl⟩ | ⟨_, _, _, r, hr, rfl⟩ <;> simp

/-- C4 at a concrete step: the first batch of a run has the loss NaN. -/
theorem C4_skipped_step_frame_witness :
    ∃ s', batchLoop ⟨Real.sqrt, Real.rpow⟩ (unitCollab ℝ) none "m"
        (Train.init (Trainer.Init (plainConfig ℝ)) (fun _ => [DVal.nan]) (oneParamModel ℝ)) = some s' ∧
      s'.model = (Train.init (Trainer.Init (plainConfig ℝ)) (fun _ => [DVal.nan])
        (oneParamModel ℝ) : TrainState ℝ (DVal ℝ)).model ∧
      s'.step = 1 ∧ s'.nSkipped = 1 := by
  have hsome : (batchLoop ⟨Real.sqrt, Real.rpow⟩ (unitCollab ℝ) none "m"
        (Train.init (Trainer.Init (plainConfig ℝ)) (fun _ => [DVal.nan])
          (oneParamModel ℝ))).isSome = true := by
    norm_num [batchLoop, trainStep, Train.init, PrepareModel, Trainer.Init,
      plainConfig, unitCollab, oneParamModel, BatchLoader.Init, lossGate,
      IsNAN, IsINF, DVal.divInt, DVal.ltConst, MakeGrad, SetZeroAll]
  obtain ⟨s', hs'⟩ := Option.isSome_iff_exists.mp hsome
  have h := (C4_skipped_step_frame _ _ _ _ _ s' DVal.nan [] rfl hs').1
    (Or.inl (by simp [unitCollab, DVal.divInt]))
  refine ⟨s', hs', h.1, ?_, ?_⟩
  · rw [h.2.2.2.2.2.2.1]; simp [Train.init]
  · rw [h.2.2.2.2.2.2.2]; simp [Train.init]

/-- C5: for every `β1` and every `β2 ≠ 1`, on tensors of one shape the sequence
of tensor operations of the adaptive branch of `Update` computes, entry by
entry, the rule of the specification: `M ← β1·M + (1 − β1)·g`,
`V ← β2·V + (1 − β2)·g·g`, `p ← p − e·M/(√V + d)` with the new `M` and `V`,
where `e` and `d` are the values the branch computes from the advanced powers. -/
theorem C5_adamBranch_refines_spec (t : Trainer ℝ) (lr : ℝ) (i : Nat) (para g m v : List ℝ)
    (hb : t.adamBeta2 ≠ 1)
    (hm : t.moments[i]? = some m) (hv : t.moments2nd[i]? = some v)
    (hml : m.length = g.length) (hvl : v.length = g.length) (hpl : para.length = g.length) :
    adamBranch ⟨Real.sqrt, Real.rpow⟩ t lr i para g =
      some ({ t with
              adamBeta1T := t.adamBeta1T * t.adamBeta1
              adamBeta2T := t.adamBeta2T * t.adamBeta2
              moments := t.moments.set i (List.zipWith (specM t.adamBeta1) m g)
              moments2nd := t.moments2nd.set i (List.zipWith (specV t.adamBeta2) v g) },
            List.zipWith (fun p MV =>
                specP Real.sqrt
                  (lr * Real.sqrt (1 - t.adamBeta2T * t.adamBeta2) / (1 - t.adamBeta1T * t.adamBeta1))
                  (t.adamDelta * Real.sqrt (1 - t.adamBeta2T * t.adamBeta2)) p MV.1 MV.2)
              para (List.zip (List.zipWith (specM t.adamBeta1) m g)
                (List.zipWith (specV t.adamBeta2) v g))) := by
  have hb1 : (1 : ℝ) - t.adamBeta2 ≠ 0 := sub_ne_zero.mpr (Ne.symm hb)
  have e1 : List.zipWith (fun x y => x + y * (1 - t.adamBeta1)) (_ScaleAndShiftMe m t.adamBeta1 0) g
      = List.zipWith (specM t.adamBeta1) m g := by
    apply List.ext_getElem
    · simp [_ScaleAndShiftMe]
    · intro n h1 h2
      simp [_ScaleAndShiftMe, specM]
      ring
  have e2 : _ScaleAndShiftMe
        (List.zipWith (fun xy z => xy + t.adamBeta2 / (1 - t.adamBeta2) * z)
          (List.zipWith (fun x y => x * y) g g) v) (1 - t.adamBeta2) 0
      = List.zipWith (specV t.adamBeta2) v g := by
    apply List.ext_getElem
    · simp [_ScaleAndShiftMe, hvl]
    · intro n h1 h2
      simp [_ScaleAndShiftMe, specV]
      field_simp
      ring
  have hl1 : (List.zipWith (specM t.adamBeta1) m g).length = g.length := by simp [hml]
  have hl2 : (List.zipWith (specV t.adamBeta2) v g).length = g.length := by simp [hvl]
  simp only [adamBranch, hm, hv, Option.bind_eq_bind, Option.some_bind, Option.pure_def,
    bind_pure_comp]
  rw [_Sum_of_length_eq _ _ _ (by simp [_ScaleAndShiftMe, hml])]
  simp only [Option.some_bind, _Multiply, hvl, and_self, if_true, e1, e2]
  simp only [_Div, _Power, _ScaleAndShiftMe, List.length_map, hl1, hl2, and_self, if_true,
    Option.some_bind]
  rw [_Sum_of_length_eq _ _ _ (by simp [hl1, hl2, hpl])]
  simp only [Option.some_bind, Option.some.injEq, Prod.mk.injEq, true_and]
  apply List.ext_getElem
  · simp [hl1, hl2, hpl]
  · intro n h1 h2
    simp [specP, Real.sqrt_eq_rpow]
    ring

/-- C5 at a concrete input: the first parameter of `twoParamModel` under
`twoParamTrainer` (`β2 = 0.999 ≠ 1`); the new first moment is `[0.1]`. -/
theorem C5_adamBranch_refines_spec_witness :
    (twoParamTrainer ℝ).adamBeta2 ≠ 1 ∧
    (adamBranch ⟨Real.sqrt, Real.rpow⟩ (twoParamTrainer ℝ) (1e-3) 0 [0] [1]).map
        (fun r => r.1.moments) = some [[0.1], [0]] := by
  have hb : (twoParamTrainer ℝ).adamBeta2 ≠ 1 := by
    simp [twoParamTrainer, Trainer.Init, adamConfig]; norm_num
  refine ⟨hb, ?_⟩
  rw [C5_adamBranch_refines_spec (twoParamTrainer ℝ) (1e-3) 0 [0] [1] [0] [0] hb
    (by simp [twoParamTrainer]) (by simp [twoParamTrainer]) rfl rfl rfl]
  simp [twoParamTrainer, Trainer.Init, adamConfig, specM]
  norm_num

/-- C6: with the non-adaptive optimizer, on a parameter list whose gradients
have the shape of their parameters, `Update` returns, leaves the trainer as it
was, and replaces every parameter that has a gradient `g` by `p − lr·g` (the
gradient before the call) with a zero gradient, the others staying as they are;
the scalar `p = 1.0` with `g = 0.1` and `lr = 0.01` becomes `p = 0.999`, `g = 0`. -/
theorem C6_Update_sgd {α : Type} [LinearOrderedField α] (F : CMath α) (t : Trainer α)
    (model : Model α) (lr : α) (hA : t.useAdam = false)
    (hs : ∀ p ∈ model.params, ∀ g, p.grad = some g → g.length = p.val.length) :
    Update F t model lr = some (t, { model with params := model.params.map (specSGD lr) }) ∧
    (specSGD (0.01 : α) { val := [1.0], grad := some [0.1] } =
      { val := [0.999], grad := some [0] }) := by
  constructor
  · obtain ⟨cur, h1, h2, h3⟩ := Update_sgd_fold F lr t model.params hA hs model.params.length le_rfl
    have : cur = model.params.map (specSGD lr) := by
      apply List.ext_getElem?
      intro j
      rw [h3 j]
      by_cases hj : j < model.params.length
      · simp [hj]
      · simp [hj, List.getElem?_eq_none (Nat.le_of_not_lt hj)]
    simp [Update, h1, this]
  · simp [specSGD]
    norm_num

/-- C6 at scenario S5: `Update` with `lr = 0.01` on the model with the single
scalar parameter `p = 1.0`, `g = 0.1`, non-adaptive trainer, gives `p = 0.999`,
`g = 0`. -/
theorem C6_Update_sgd_witness :
    (Update ⟨Real.sqrt, Real.rpow⟩ (Trainer.Init { adamConfig ℝ with useAdam := false })
        (sgdModel ℝ) 0.01).map (fun r => r.2.params) =
      some [{ val := [0.999], grad := some [0] }] := by
  rw [(C6_Update_sgd ⟨Real.sqrt, Real.rpow⟩ (Trainer.Init { adamConfig ℝ with useAdam := false })
    (sgdModel ℝ) 0.01 rfl (by
      intro p hp g hg
      simp [sgdModel] at hp
      subst hp
      simp at hg
      subst hg
      rfl)).1]
  simp [sgdModel, specSGD]
  norm_num


/-- C7 (counterexample): with `nStepCheckpoint = 1`, a run whose only batch has
the loss NaN, and is skipped by the loss gate, writes one snapshot labelled
"step" although no batch was usable and `Update` was never called: the number
of step checkpoints is `1`, not `floor(0 / 1) = 0`. -/
theorem C7_counterexample :
    ∃ r, Train ⟨Real.sqrt, Real.rpow⟩ (unitCollab ℝ)
        (Trainer.Init { plainConfig ℝ with nStepCheckpoint := 1 })
        (fun _ => [DVal.nan]) none "m" (oneParamModel ℝ) = some r ∧
      usableCount r.hist = 0 ∧ updateCount r.hist = 0 ∧ r.nSkipped = 1 ∧
      (withLabel "step" r.dumps).length = 1 ∧
      ((withLabel "step" r.dumps).length : Int) ≠ (usableCount r.hist : Int) / 1 ∧
      ((withLabel "step" r.dumps).length : Int) ≠ (updateCount r.hist : Int) / 1 := by
  have hev : (Train ⟨Real.sqrt, Real.rpow⟩ (unitCollab ℝ)
        (Trainer.Init { plainConfig ℝ with nStepCheckpoint := 1 })
        (fun _ => [DVal.nan]) none "m" (oneParamModel ℝ)).map
      (fun r => (usableCount r.hist, updateCount r.hist, r.nSkipped,
        (withLabel "step" r.dumps).length)) = some (0, 0, 1, 1) := by
    norm_num [Train, epochLoop, batchLoop, trainStep, Train.init, PrepareModel, Trainer.Init,
      plainConfig, unitCollab, oneParamModel, BatchLoader.ClearBuf, BatchLoader.Init, lossGate,
      IsNAN, IsINF, DVal.divInt, DVal.ltConst, MakeGrad, SetZeroAll, MakeCheckpoint,
      usableCount, updateCount, withLabel]
  obtain ⟨r, hr, he⟩ := Option.map_eq_some'.mp hev
  simp only [Prod.mk.injEq] at he
  obtain ⟨e1, e2, e3, e4⟩ := he
  exact ⟨r, hr, e1, e2, e3, e4, by rw [e1, e4]; decide, by rw [e2, e4]; decide⟩

/-- C7 (amended): when `nStepCheckpoint > 0`, a run of `Train` ends with as many
snapshots labelled "step" as `floor(k / nStepCheckpoint)`, where `k` is the
number of processed batches, usable or skipped alike, not counting the batch on
which `step` reached `nstep` (the loop is left before the test of line 245);
`nCheckpoint` is that number and `step` the number of processed batches. -/
theorem C7_step_checkpoints_count_batches {α B : Type} [LinearOrderedField α] (F : CMath α)
    (E : Collab α B) (t : Trainer α) (fn : Nat → List B) (validFN : Option (Nat → List B))
    (modelFN : String) (model : Model α) (hN : 0 < t.nStepCheckpoint) :
    ∀ r, Train F E t fn validFN modelFN model = some r →
      r.step = (r.hist.length : Int) ∧
      r.nCheckpoint = ((withLabel "step" r.dumps).length : Int) ∧
      ((withLabel "step" r.dumps).length : Int) =
        ((r.hist.length : Int) - (if r.isEnd then 1 else 0)) / t.nStepCheckpoint := by
  intro r hr
  obtain ⟨_, h2, h3, h4, h5⟩ := StepCkptInv_Train F E t fn validFN modelFN model hN r hr
  refine ⟨h2, h3, ?_⟩
  rw [← h3, ← h2]
  cases he : r.isEnd with
  | false => simpa using (h4 he).2
  | true => simpa using h5 he

/-- C7 (amended) at a concrete run: `nStepCheckpoint = 1` and one usable batch. -/
theorem C7_step_checkpoints_count_batches_witness :
    0 < (Trainer.Init { plainConfig ℝ with nStepCheckpoint := 1 }).nStepCheckpoint ∧
    ∃ r, Train ⟨Real.sqrt, Real.rpow⟩ (unitCollab ℝ)
        (Trainer.Init { plainConfig ℝ with nStepCheckpoint := 1 })
        (fun _ => [DVal.fin 1]) none "m" (oneParamModel ℝ) = some r ∧
      ((withLabel "step" r.dumps).length : Int) =
        ((r.hist.length : Int) - (if r.isEnd then 1 else 0)) / 1 := by
  have hN : 0 < (Trainer.Init { plainConfig ℝ with nStepCheckpoint := 1 }).nStepCheckpoint := by
    simp [Trainer.Init]
  have hsome : (Train ⟨Real.sqrt, Real.rpow⟩ (unitCollab ℝ)
        (Trainer.Init { plainConfig ℝ with nStepCheckpoint := 1 })
        (fun _ => [DVal.fin 1]) none "m" (oneParamModel ℝ)).isSome = true := by
    norm_num [Train, epochLoop, batchLoop, trainStep, Train.init, PrepareModel, Trainer.Init,
      plainConfig, unitCollab, oneParamModel, BatchLoader.ClearBuf, BatchLoader.Init, lossGate,
      IsNAN, IsINF, DVal.divInt, DVal.ltConst, Update, UpdateAt, MakeGrad, applyBackward,
      List.range, List.range.loop, _Sum, SetZeroAll, MakeCheckpoint]
  obtain ⟨r, hr⟩ := Option.isSome_iff_exists.mp hsome
  exact ⟨hN, r, hr, (C7_step_checkpoints_count_batches _ _ _ _ _ _ _ hN r hr).2.2⟩

/-- C8: for every `maxCheckpoint = K ≥ 1` (in the configuration and in the
trainer, as after `Init`) and every sequence of calls of `MakeCheckpoint` on one
trainer, the call number `n` (from 0) uses `id = n mod K`, an id in `0..K-1`,
in its file name, and after the calls the slot counter `maxCheckpoint` of the
trainer is in `1..K`; the label in the name is the label of the call; without a
validation file the calls always return. -/
theorem C8_checkpoint_ids_cycle {α B : Type} [LinearOrderedField α] (E : Collab α B)
    (validFN : Option (Nat → List B)) (modelFN : String) (t : Trainer α) (K : Int)
    (hK : 1 ≤ K) (h1 : t.cfg.maxCheckpoint = K) (h2 : t.maxCheckpoint = K)
    (calls : List (Model α × String)) :
    (∀ r, MakeCheckpoints E validFN modelFN t calls = some r →
      r.2.length = calls.length ∧
      (∀ (n : Nat) (d : Snapshot), r.2[n]? = some d →
        d.id = (n : Int) % K ∧ 0 ≤ d.id ∧ d.id < K ∧
        (calls[n]?).map Prod.snd = some d.label ∧
        d.fn = modelFN ++ "." ++ d.label ++ "." ++ fmt03d ((n : Int) % K)) ∧
      1 ≤ r.1.maxCheckpoint ∧ r.1.maxCheckpoint ≤ K) ∧
    (validFN = none → (MakeCheckpoints E validFN modelFN t calls).isSome = true) := by
  constructor
  · intro r hr
    obtain ⟨a1, a2, _, a4⟩ := MakeCheckpoints_ids E validFN modelFN K hK calls t 0 r h1
      (by rw [h2]; ring) (le_refl 0) (by omega) hr
    have hlt : ∀ x : Int, x % K < K := fun x => Int.emod_lt_of_pos x (by omega)
    have hge : ∀ x : Int, 0 ≤ x % K := fun x => Int.emod_nonneg x (by omega)
    refine ⟨a1, ?_, ?_, ?_⟩
    · intro n d hd
      obtain ⟨b1, b2, b3⟩ := a2 n d hd
      rw [zero_add] at b1
      exact ⟨b1, by rw [b1]; exact hge _, by rw [b1]; exact hlt _, b3, by rw [← b1]; exact b2⟩
    · rw [a4]
      have := hlt (0 + (calls.length : Int))
      omega
    · rw [a4]
      have := hge (0 + (calls.length : Int))
      omega
  · intro hv
    subst hv
    clear h1 h2
    induction calls generalizing t with
    | nil => simp [MakeCheckpoints]
    | cons c cs ih =>
      have hr1 : ∃ r1, MakeCheckpoint E t c.1 none modelFN c.2 = some r1 := ⟨_, rfl⟩
      obtain ⟨r1, hr1⟩ := hr1
      obtain ⟨r2, hr2⟩ := Option.isSome_iff_exists.mp (ih r1.1)
      simp [MakeCheckpoints, hr1, hr2]

/-- C8 at a concrete input: `K = 2` and three calls give the ids `0, 1, 0` and
leave the slot counter at `1`. -/
theorem C8_checkpoint_ids_cycle_witness :
    (1 : Int) ≤ 2 ∧
    (MakeCheckpoints (unitCollab ℝ) none "m"
        (Trainer.Init { plainConfig ℝ with maxCheckpoint := 2 })
        [(oneParamModel ℝ, "step"), (oneParamModel ℝ, "epoch"), (oneParamModel ℝ, "step")]).map
      (fun r => (r.1.maxCheckpoint, r.2.map Snapshot.id)) = some (1, [0, 1, 0]) ∧
    ∀ r, MakeCheckpoints (unitCollab ℝ) none "m"
        (Trainer.Init { plainConfig ℝ with maxCheckpoint := 2 })
        [(oneParamModel ℝ, "step"), (oneParamModel ℝ, "epoch"), (oneParamModel ℝ, "step")] = some r →
      1 ≤ r.1.maxCheckpoint ∧ r.1.maxCheckpoint ≤ 2 := by
  refine ⟨by decide, ?_, ?_⟩
  · norm_num [MakeCheckpoints, MakeCheckpoint, Trainer.Init, plainConfig]
  · intro r hr
    exact ((C8_checkpoint_ids_cycle (unitCollab ℝ) none "m"
      (Trainer.Init { plainConfig ℝ with maxCheckpoint := 2 }) 2 (by decide) rfl rfl _).1 r hr).2.2

/-- C9 (counterexample): with `maxCheckpoint = 1`, `nStepCheckpoint = 1` and the
epoch checkpoint enabled, one epoch with one batch writes the two snapshots
`m.step.000` and `m.epoch.000`: two distinct file names, more than `K = 1`. -/
theorem C9_counterexample :
    ∃ r, Train ⟨Real.sqrt, Real.rpow⟩ (unitCollab ℝ)
        (Trainer.Init { plainConfig ℝ with nStepCheckpoint := 1, useEpochCheckpoint := true })
        (fun _ => [DVal.fin 1]) none "m" (oneParamModel ℝ) = some r ∧
      r.trainer.cfg.maxCheckpoint = 1 ∧
      r.dumps.map Snapshot.fn = ["m.step.000", "m.epoch.000"] ∧
      ¬ ((r.dumps.map Snapshot.fn).toFinset.card ≤ 1) := by
  have hev : (Train ⟨Real.sqrt, Real.rpow⟩ (unitCollab ℝ)
        (Trainer.Init { plainConfig ℝ with nStepCheckpoint := 1, useEpochCheckpoint := true })
        (fun _ => [DVal.fin 1]) none "m" (oneParamModel ℝ)).map
      (fun r => (r.trainer.cfg.maxCheckpoint, r.dumps.map Snapshot.fn)) =
        some (1, ["m" ++ "." ++ "step" ++ "." ++ "000", "m" ++ "." ++ "epoch" ++ "." ++ "000"]) := by
    norm_num [Train, epochLoop, batchLoop, trainStep, Train.init, PrepareModel, Trainer.Init,
      plainConfig, unitCollab, oneParamModel, BatchLoader.ClearBuf, BatchLoader.Init, lossGate,
      IsNAN, IsINF, DVal.divInt, DVal.ltConst, Update, UpdateAt, MakeGrad, applyBackward,
      List.range, List.range.loop, _Sum, SetZeroAll, MakeCheckpoint, fmt03d_zero]
  obtain ⟨r, hr, he⟩ := Option.map_eq_some'.mp hev
  simp only [Prod.mk.injEq] at he
  obtain ⟨e1, e2⟩ := he
  have e3 : r.dumps.map Snapshot.fn = ["m.step.000", "m.epoch.000"] := by
    rw [e2]; decide
  refine ⟨r, hr, e1, e3, ?_⟩
  rw [e3]
  decide

/-- C9 (amended): with `maxCheckpoint = K ≥ 1` (in the configuration and in the
trainer, as after `Init`), every snapshot written during a run of `Train` has
label "step" or "epoch", an id in `0..K-1` and the name
`<modelFN>.<label>.<id:03d>`; so for each label at most `K` distinct snapshot
file names are written, and at most `2·K` over both labels. -/
theorem C9_snapshot_names_per_label {α B : Type} [LinearOrderedField α] (F : CMath α)
    (E : Collab α B) (t : Trainer α) (fn : Nat → List B) (validFN : Option (Nat → List B))
    (modelFN : String) (model : Model α) (K : Int) (hK : 1 ≤ K)
    (h1 : t.cfg.maxCheckpoint = K) (h2 : t.maxCheckpoint = K) :
    ∀ r, Train F E t fn validFN modelFN model = some r →
      (∀ d ∈ r.dumps, (d.label = "step" ∨ d.label = "epoch") ∧ 0 ≤ d.id ∧ d.id < K ∧
        d.fn = modelFN ++ "." ++ d.label ++ "." ++ fmt03d d.id) ∧
      (∀ label : String,
        ((((withLabel label r.dumps).map Snapshot.fn).toFinset.card : Nat) : Int) ≤ K) ∧
      (((r.dumps.map Snapshot.fn).toFinset.card : Nat) : Int) ≤ 2 * K := by
  intro r hr
  obtain ⟨_, _, _, hd⟩ := RotationInv_Train F E t fn validFN modelFN model K hK h1 h2 r hr
  have hlab : ∀ label : String,
      ((((withLabel label r.dumps).map Snapshot.fn).toFinset.card : Nat) : Int) ≤ K := by
    intro label
    have := card_names_le K modelFN label (withLabel label r.dumps) (by
      intro d hmem
      simp only [withLabel, List.mem_filter, decide_eq_true_eq] at hmem
      obtain ⟨_, a, b, c⟩ := hd d hmem.1
      exact ⟨hmem.2, a, b, c⟩)
    rwa [max_eq_left (by omega)] at this
  refine ⟨hd, hlab, ?_⟩
  have hsub : (r.dumps.map Snapshot.fn).toFinset ⊆
      ((withLabel "step" r.dumps).map Snapshot.fn).toFinset ∪
      ((withLabel "epoch" r.dumps).map Snapshot.fn).toFinset := by
    intro x hx
    simp only [List.mem_toFinset, List.mem_map] at hx
    obtain ⟨d, hmem, rfl⟩ := hx
    simp only [Finset.mem_union, List.mem_toFinset, List.mem_map, withLabel, List.mem_filter,
      decide_eq_true_eq]
    rcases (hd d hmem).1 with hl | hl
    · exact Or.inl ⟨d, ⟨hmem, hl⟩, rfl⟩
    · exact Or.inr ⟨d, ⟨hmem, hl⟩, rfl⟩
  have hc := (Finset.card_le_card hsub).trans (Finset.card_union_le _ _)
  have hs := hlab "step"
  have he := hlab "epoch"
  have : (((r.dumps.map Snapshot.fn).toFinset.card : Nat) : Int) ≤
      ((((withLabel "step" r.dumps).map Snapshot.fn).toFinset.card : Nat) : Int) +
      ((((withLabel "epoch" r.dumps).map Snapshot.fn).toFinset.card : Nat) : Int) := by
    exact_mod_cast hc
  omega

/-- C9 (amended) at a concrete run: `K = 1`, both checkpoint triggers enabled. -/
theorem C9_snapshot_names_per_label_witness :
    (1 : Int) ≤ 1 ∧
    ∃ r, Train ⟨Real.sqrt, Real.rpow⟩ (unitCollab ℝ)
        (Trainer.Init { plainConfig ℝ with nStepCheckpoint := 1, useEpochCheckpoint := true })
        (fun _ => [DVal.fin 1]) none "m" (oneParamModel ℝ) = some r ∧
      (∀ label : String,
        ((((withLabel label r.dumps).map Snapshot.fn).toFinset.card : Nat) : Int) ≤ 1) ∧
      (((r.dumps.map Snapshot.fn).toFinset.card : Nat) : Int) ≤ 2 * 1 := by
  have hsome : (Train ⟨Real.sqrt, Real.rpow⟩ (unitCollab ℝ)
        (Trainer.Init { plainConfig ℝ with nStepCheckpoint := 1, useEpochCheckpoint := true })
        (fun _ => [DVal.fin 1]) none "m" (oneParamModel ℝ)).isSome = true := by
    norm_num [Train, epochLoop, batchLoop, trainStep, Train.init, PrepareModel, Trainer.Init,
      plainConfig, unitCollab, oneParamModel, BatchLoader.ClearBuf, BatchLoader.Init, lossGate,
      IsNAN, IsINF, DVal.divInt, DVal.ltConst, Update, UpdateAt, MakeGrad, applyBackward,
      List.range, List.range.loop, _Sum, SetZeroAll, MakeCheckpoint]
  obtain ⟨r, hr⟩ := Option.isSome_iff_exists.mp hsome
  have h := C9_snapshot_names_per_label _ _ _ _ _ _ _ 1 (le_refl 1) rfl rfl r hr
  exact ⟨le_refl 1, r, hr, h.2.1, h.2.2⟩

/-- C10: over the reals, for every `nwarmup ≥ 1`, every `lrate > 1e-7` and every
integer `step` with `1 ≤ step < nwarmup`, the scheduled learning rate grows
strictly from `step` to `step + 1`, the change of branch from `nwarmup - 1` to
`nwarmup` included. -/
theorem C10_schedule_increasing_in_warmup (lrate : ℝ) (nwarmup step : Int)
    (hw : 1 ≤ nwarmup) (hl : 1e-7 < lrate) (_h1 : 1 ≤ step) (h2 : step < nwarmup) :
    scheduleLR ⟨Real.sqrt, Real.rpow⟩ lrate nwarmup step <
      scheduleLR ⟨Real.sqrt, Real.rpow⟩ lrate nwarmup (step + 1) := by
  have hpos : (0 : ℝ) < (nwarmup : ℝ) := by exact_mod_cast (by omega : (0 : Int) < nwarmup)
  have hd : 0 < lrate - 1e-7 := sub_pos.mpr hl
  have hs : 0 < (lrate - 1e-7) / (nwarmup : ℝ) := div_pos hd hpos
  rw [scheduleLR_warmup _ _ _ _ h2]
  by_cases h3 : step + 1 < nwarmup
  · rw [scheduleLR_warmup _ _ _ _ h3]
    push_cast
    linarith
  · have he : step + 1 = nwarmup := by omega
    rw [he, scheduleLR_peak _ _ hw]
    have hlt : (step : ℝ) < (nwarmup : ℝ) := by exact_mod_cast h2
    have : (step : ℝ) * ((lrate - 1e-7) / (nwarmup : ℝ)) < (nwarmup : ℝ) * ((lrate - 1e-7) / (nwarmup : ℝ)) :=
      mul_lt_mul_of_pos_right hlt hs
    have h4 : (nwarmup : ℝ) * ((lrate - 1e-7) / (nwarmup : ℝ)) = lrate - 1e-7 := by
      field_simp
    linarith

/-- C10 at the change of branch: `lrate = 7e-4`, `nwarmup = 4000`, `step = 3999`. -/
theorem C10_schedule_increasing_in_warmup_witness :
    (1 : Int) ≤ 4000 ∧ (1e-7 : ℝ) < 7e-4 ∧
    scheduleLR ⟨Real.sqrt, Real.rpow⟩ (7e-4) 4000 3999 <
      scheduleLR ⟨Real.sqrt, Real.rpow⟩ (7e-4) 4000 (3999 + 1) :=
  ⟨by decide, by norm_num,
    C10_schedule_increasing_in_warmup (7e-4) 4000 3999 (by decide) (by norm_num) (by decide)
      (by decide)⟩

/-- C11: over the reals, for every `nwarmup ≥ 1` and every `lrate > 0`, the
scheduled learning rate falls strictly from `step` to `step + 1` for every
integer `step ≥ nwarmup`, and it tends to 0 as `step` tends to infinity. -/
theorem C11_schedule_decreasing_after_warmup (lrate : ℝ) (nwarmup : Int) (hw : 1 ≤ nwarmup)
    (hl : 0 < lrate) :
    (∀ step : Int, nwarmup ≤ step →
      scheduleLR ⟨Real.sqrt, Real.rpow⟩ lrate nwarmup (step + 1) <
        scheduleLR ⟨Real.sqrt, Real.rpow⟩ lrate nwarmup step) ∧
    Filter.Tendsto (fun n : Nat => scheduleLR ⟨Real.sqrt, Real.rpow⟩ lrate nwarmup (n : Int))
      Filter.atTop (nhds 0) := by
  constructor
  · intro step hs
    obtain ⟨e1, p1, _⟩ := scheduleLR_decay_pos lrate nwarmup step hw hs
    obtain ⟨e2, _, _⟩ := scheduleLR_decay_pos lrate nwarmup (step + 1) hw (by omega)
    rw [e1, e2]
    have hspos : (0 : ℝ) < (step : ℝ) := by exact_mod_cast (by omega : (0 : Int) < step)
    have hlt : ((step + 1 : Int) : ℝ) ^ (-((1 : ℝ) / 2)) < (step : ℝ) ^ (-((1 : ℝ) / 2)) := by
      apply Real.rpow_lt_rpow_of_exponent_neg hspos
      · push_cast; linarith
      · norm_num
    exact mul_lt_mul_of_pos_left (mul_lt_mul_of_pos_left hlt p1) hl
  · have h1 : Filter.Tendsto (fun n : Nat => ((n : ℝ)) ^ (-((1 : ℝ) / 2))) Filter.atTop (nhds 0) :=
      (tendsto_rpow_neg_atTop (by norm_num : (0 : ℝ) < 1 / 2)).comp tendsto_natCast_atTop_atTop
    have h2 : Filter.Tendsto
        (fun n : Nat => lrate * (nwarmup : ℝ) ^ ((1 : ℝ) / 2) * ((n : ℝ)) ^ (-((1 : ℝ) / 2)))
        Filter.atTop (nhds (lrate * (nwarmup : ℝ) ^ ((1 : ℝ) / 2) * 0)) :=
      h1.const_mul _
    rw [mul_zero] at h2
    refine h2.congr' ?_
    filter_upwards [Filter.eventually_ge_atTop nwarmup.toNat] with n hn
    have hs : nwarmup ≤ (n : Int) := by omega
    rw [(scheduleLR_decay_pos lrate nwarmup n hw hs).1]
    push_cast
    ring

/-- C11 at `lrate = 7e-4`, `nwarmup = 4000`, `step = 4000`. -/
theorem C11_schedule_decreasing_after_warmup_witness :
    (1 : Int) ≤ 4000 ∧ (0 : ℝ) < 7e-4 ∧
    scheduleLR ⟨Real.sqrt, Real.rpow⟩ (7e-4) 4000 (4000 + 1) <
      scheduleLR ⟨Real.sqrt, Real.rpow⟩ (7e-4) 4000 4000 :=
  ⟨by decide, by norm_num,
    (C11_schedule_decreasing_after_warmup (7e-4) 4000 (by decide) (by norm_num)).1 4000
      (le_refl _)⟩

/-- C12: over the reals, for every `nwarmup ≥ 1` and every `lrate`, the schedule
returns exactly `lrate` at `step = nwarmup` and exactly `lrate / 2` at
`step = 4·nwarmup`. -/
theorem C12_schedule_peak_and_decay (lrate : ℝ) (nwarmup : Int) (hw : 1 ≤ nwarmup) :
    scheduleLR ⟨Real.sqrt, Real.rpow⟩ lrate nwarmup nwarmup = lrate ∧
    scheduleLR ⟨Real.sqrt, Real.rpow⟩ lrate nwarmup (4 * nwarmup) = lrate / 2 := by
  refine ⟨scheduleLR_peak lrate nwarmup hw, ?_⟩
  have hpos : (0 : ℝ) < (nwarmup : ℝ) := by exact_mod_cast (by omega : (0 : Int) < nwarmup)
  rw [(scheduleLR_decay_pos lrate nwarmup (4 * nwarmup) hw (by omega)).1]
  push_cast
  rw [Real.mul_rpow (by norm_num) hpos.le, rpow_four_neg_half]
  have : (nwarmup : ℝ) ^ ((1 : ℝ) / 2) * (nwarmup : ℝ) ^ (-((1 : ℝ) / 2)) = 1 := by
    rw [← Real.rpow_add hpos]
    simp
  calc lrate * ((nwarmup : ℝ) ^ ((1 : ℝ) / 2) * (1 / 2 * (nwarmup : ℝ) ^ (-((1 : ℝ) / 2))))
      = lrate * (1 / 2) * ((nwarmup : ℝ) ^ ((1 : ℝ) / 2) * (nwarmup : ℝ) ^ (-((1 : ℝ) / 2))) := by
        ring
    _ = lrate / 2 := by rw [this]; ring

/-- C12 at `lrate = 7e-4`, `nwarmup = 4000`: `lr(4000) = 7e-4` and
`lr(16000) = 3.5e-4`. -/
theorem C12_schedule_peak_and_decay_witness :
    (1 : Int) ≤ 4000 ∧
    scheduleLR ⟨Real.sqrt, Real.rpow⟩ (7e-4) 4000 4000 = 7e-4 ∧
    scheduleLR ⟨Real.sqrt, Real.rpow⟩ (7e-4) 4000 16000 = 3.5e-4 := by
  have h := C12_schedule_peak_and_decay (7e-4) 4000 (by decide)
  refine ⟨by decide, h.1, ?_⟩
  have h2 := h.2
  norm_num at h2 ⊢
  exact h2

/-- C13 (counterexample): with `lrate = 7e-4` and `nwarmup = 4000` the learning
rate of `step = 1` is not within `1e-8` of `1.75e-7`. -/
theorem C13_counterexample :
    ¬ (|scheduleLR ⟨Real.sqrt, Real.rpow⟩ (7e-4) 4000 1 - 1.75e-7| ≤ 1e-8) := by
  rw [scheduleLR_warmup _ _ _ _ (by decide)]
  norm_num [abs_le]

/-- C13 (amended): with `lrate = 7e-4` and `nwarmup = 4000` the schedule at
`step = 1` returns `1e-7 + 1·(7e-4 − 1e-7)/4000`, which is `2.74975e-7`, within
`1e-8` of `2.75e-7`. -/
theorem C13_schedule_warmup_value (F : CMath ℝ) :
    scheduleLR F (7e-4) 4000 1 = 1e-7 + 1 * ((7e-4 - 1e-7) / 4000) ∧
    scheduleLR F (7e-4) 4000 1 = 2.74975e-7 ∧
    |scheduleLR F (7e-4) 4000 1 - 2.75e-7| ≤ 1e-8 := by
  rw [scheduleLR_warmup _ _ _ _ (by decide)]
  refine ⟨by norm_num, by norm_num, ?_⟩
  norm_num [abs_le]

/-- C14: over the reals, `PrepareModel` on the model of scenario S6 gives the
fresh adaptive state (`β1^t = β2^t = 1`, `M = V = 0`), and from it one call of
`Update` with `lr = 1e-3` (`β1 = 0.9`, `β2 = 0.999`, `δ = 1e-9`, `p = 0`, `g = 1`)
yields `β1^t = 0.9`, `β2^t = 0.999`, `M = 0.1`, `V = 0.001`, a zero gradient and
`p = −1e-3/(1 + 1e-9)`, which is within `1e-9` of `−1.0e-3`. -/
theorem C14_adam_first_step :
    (PrepareModel (Trainer.Init (adamConfig ℝ)) (adamModel ℝ)) =
      (oneParamAdamTrainer ℝ, adamModel ℝ) ∧
    (Update ⟨Real.sqrt, Real.rpow⟩ (oneParamAdamTrainer ℝ) (adamModel ℝ) 1e-3).map
      (fun r => (r.1.adamBeta1T, r.1.adamBeta2T, r.1.moments, r.1.moments2nd, r.2.params)) =
      some (0.9, 0.999, [[0.1]], [[0.001]],
        [{ val := [-1e-3 / (1 + 1e-9)], grad := some [0] }]) ∧
    |(-1e-3 / (1 + 1e-9) : ℝ) - (-1.0e-3)| ≤ 1e-9 := by
  refine ⟨?_, ?_, ?_⟩
  · simp [PrepareModel, oneParamAdamTrainer, adamModel, Trainer.Init, adamConfig, MakeGrad,
      SetZeroAll]
  · simp [Update, UpdateAt, adamBranch, Trainer.Init, List.range, List.range.loop, _Sum,
      _Multiply, _Div, _Power, _ScaleAndShiftMe, SetZeroAll, oneParamAdamTrainer, adamModel,
      adamConfig]
    norm_num
    have h : ((1 : ℝ) / 1000) ^ ((1 : ℝ) / 2) = (Real.sqrt 1000)⁻¹ := by
      rw [← Real.sqrt_eq_rpow, one_div, Real.sqrt_inv]
    have hs : 0 < Real.sqrt 1000 := Real.sqrt_pos.mpr (by norm_num)
    rw [h]
    field_simp
    ring
  · norm_num [abs_le]

/-- C15: in both optimizer variants, on a parameter list whose parameters with a
gradient are well shaped, `Update` returns, whatever parameters with a null
gradient the list holds; such a parameter keeps its value and null gradient and
its moment entries `M[i]`, `V[i]`; and every parameter `j` with a gradient is
updated at its own index: by the non-adaptive rule, or by the adaptive branch
run at index `j` against the moment entries the trainer had at `j` before the
call. -/
theorem C15_Update_skips_null_gradients {α : Type} [LinearOrderedField α] (F : CMath α)
    (t : Trainer α) (model : Model α) (lr : α)
    (hw : ∀ i p, model.params[i]? = some p → Para.wellShaped t i p) :
    ∃ r, Update F t model lr = some r ∧ t.sameConfig r.1 ∧
      r.2.params.length = model.params.length ∧
      (∀ (i : Nat) (p : Para α), model.params[i]? = some p → p.grad = none →
        r.2.params[i]? = some p ∧ r.1.moments[i]? = t.moments[i]? ∧
        r.1.moments2nd[i]? = t.moments2nd[i]?) ∧
      (∀ (j : Nat) (p : Para α) (g : List α), model.params[j]? = some p → p.grad = some g →
        if t.useAdam = true then
          ∃ tj a, t.sameConfig tj ∧ tj.moments[j]? = t.moments[j]? ∧
            tj.moments2nd[j]? = t.moments2nd[j]? ∧
            adamBranch F tj lr j p.val g = some a ∧
            r.2.params[j]? = some { val := a.2, grad := some (SetZeroAll g) } ∧
            r.1.moments[j]? = a.1.moments[j]? ∧ r.1.moments2nd[j]? = a.1.moments2nd[j]?
        else
          r.2.params[j]? = some (specSGD lr p) ∧ r.1.moments[j]? = t.moments[j]? ∧
          r.1.moments2nd[j]? = t.moments2nd[j]?) := by
  obtain ⟨tk, cur, h1, h2, h3, _, h5⟩ :=
    Update_fold_spec F lr t model.params hw model.params.length (le_refl _)
  refine ⟨(tk, { model with params := cur }), by simp [Update, h1], h2, h3, ?_, ?_⟩
  · intro i p hp hg
    have hi : i < model.params.length := by
      by_contra h
      rw [List.getElem?_eq_none (by omega)] at hp
      cases hp
    have := h5 i p hi hp
    simp only [UpdatedAt, hg] at this
    exact this
  · intro j p g hp hg
    have hj : j < model.params.length := by
      by_contra h
      rw [List.getElem?_eq_none (by omega)] at hp
      cases hp
    have := h5 j p hj hp
    simp only [UpdatedAt, hg] at this
    exact this

/-- C15 at a concrete input: the adaptive trainer on `mixedModel`, whose first
parameter has a null gradient. -/
theorem C15_Update_skips_null_gradients_witness :
    (∀ i p, (mixedModel ℝ).params[i]? = some p → Para.wellShaped (twoParamTrainer ℝ) i p) ∧
    ∃ r, Update ⟨Real.sqrt, Real.rpow⟩ (twoParamTrainer ℝ) (mixedModel ℝ) 1e-3 = some r ∧
      r.2.params[0]? = some { val := [5], grad := none } ∧
      r.1.moments[0]? = some [0] ∧ r.1.moments2nd[0]? = some [0] := by
  have hw : ∀ i p, (mixedModel ℝ).params[i]? = some p →
      Para.wellShaped (twoParamTrainer ℝ) i p := by
    intro i p hp g hg
    match i with
    | 0 =>
      simp [mixedModel] at hp
      subst hp
      simp at hg
    | 1 =>
      simp [mixedModel] at hp
      subst hp
      simp at hg
      subst hg
      simp [twoParamTrainer]
    | n + 2 => simp [mixedModel] at hp
  obtain ⟨r, h1, _, _, h4, _⟩ :=
    C15_Update_skips_null_gradients ⟨Real.sqrt, Real.rpow⟩ (twoParamTrainer ℝ) (mixedModel ℝ) 1e-3 hw
  obtain ⟨a, b, c⟩ := h4 0 { val := [5], grad := none } (by simp [mixedModel]) rfl
  exact ⟨hw, r, h1, a, by rw [b]; simp [twoParamTrainer], by rw [c]; simp [twoParamTrainer]⟩

/-- C17: after `PrepareModel`, for every parameter list and whatever the moment
lists held before, `β1^t = β2^t = 1` and the parameter values are as before;
with the adaptive optimizer `|M| = |V| = |P|` and every `M[i]`, `V[i]` is the
zero tensor of the shape of `p_i`; with the non-adaptive optimizer both moment
lists are empty. -/
theorem C17_PrepareModel_moments {α : Type} [LinearOrderedField α] (t : Trainer α)
    (model : Model α) :
    (PrepareModel t model).1.adamBeta1T = 1 ∧ (PrepareModel t model).1.adamBeta2T = 1 ∧
    (PrepareModel t model).2.params.map Para.val = model.params.map Para.val ∧
    (if t.useAdam = true then
      (PrepareModel t model).1.moments.length = (PrepareModel t model).2.params.length ∧
      (PrepareModel t model).1.moments2nd.length = (PrepareModel t model).2.params.length ∧
      ∀ (i : Nat) (p : Para α), (PrepareModel t model).2.params[i]? = some p →
        (PrepareModel t model).1.moments[i]? = some (List.replicate p.val.length 0) ∧
        (PrepareModel t model).1.moments2nd[i]? = some (List.replicate p.val.length 0)
    else
      (PrepareModel t model).1.moments = [] ∧ (PrepareModel t model).1.moments2nd = []) := by
  have hval : ∀ p : Para α, (MakeGrad p).val = p.val := by
    intro p
    unfold MakeGrad
    split
    · split <;> rfl
    · rfl
  refine ⟨rfl, rfl, ?_, ?_⟩
  · simp only [PrepareModel, List.map_map]
    apply List.map_congr_left
    intro p _
    exact hval p
  · split
    · rename_i hA
      simp only [PrepareModel, hA, if_true, List.length_map, true_and]
      intro i p hp
      simp only [List.getElem?_map, Option.map_eq_some'] at hp
      obtain ⟨q, hq, rfl⟩ := hp
      simp [hq, SetZeroAll, hval, List.map_const']
    · rename_i hA
      simp [PrepareModel, hA]

/-- C18: over the reals, with `nwarmup ≥ 1`, in a run of `Train` the `k`-th loaded
batch (`k ≥ 1`, skipped batches counted) is processed with `step = k − 1`, and a
call of `Update` on it gets the learning rate of the schedule at `k − 1`: exactly
`1e-7` on the first batch, `lrate` on batch `nwarmup + 1`, and, when
`lrate > 1e-7`, a value different from the schedule at `k`. -/
theorem C18_update_uses_pre_increment_step {B : Type} (E : Collab ℝ B) (t : Trainer ℝ)
    (fn : Nat → List B)
    (validFN : Option (Nat → List B)) (modelFN : String) (model : Model ℝ)
    (hw : 1 ≤ t.nwarmup) :
    (∀ r, Train ⟨Real.sqrt, Real.rpow⟩ E t fn validFN modelFN model = some r →
      ∀ (k : Nat) (rec : StepRec ℝ), 1 ≤ k → r.hist[k - 1]? = some rec →
        rec.step = (k : Int) - 1 ∧
        ∀ lr, rec.update = some lr →
          lr = scheduleLR ⟨Real.sqrt, Real.rpow⟩ t.lrate t.nwarmup ((k : Int) - 1) ∧
          (k = 1 → lr = 1e-7) ∧
          ((k : Int) = t.nwarmup + 1 → lr = t.lrate) ∧
          (1e-7 < t.lrate →
            lr ≠ scheduleLR ⟨Real.sqrt, Real.rpow⟩ t.lrate t.nwarmup (k : Int))) := by
  intro r hr k rec hk hrec
  obtain ⟨_, _, _, h4⟩ := ScheduleInv_Train _ E t fn validFN modelFN model r hr
  obtain ⟨a, b⟩ := h4 (k - 1) rec hrec
  have hcast : ((k - 1 : Nat) : Int) = (k : Int) - 1 := by omega
  rw [hcast] at a b
  refine ⟨a, fun lr hlr => ?_⟩
  have hb := b lr hlr
  refine ⟨hb, ?_, ?_, ?_⟩
  · intro h1
    subst h1
    rw [hb]
    simpa using scheduleLR_zero _ t.lrate t.nwarmup hw
  · intro h1
    rw [hb, h1]
    simpa using scheduleLR_peak t.lrate t.nwarmup hw
  · intro hl
    rw [hb]
    have := scheduleLR_succ_ne t.lrate t.nwarmup ((k : Int) - 1) hw hl (by omega)
    simpa using this

/-- C18 at a concrete run: the update on the first batch uses `lr = 1e-7`. -/
theorem C18_update_uses_pre_increment_step_witness :
    1 ≤ (Trainer.Init (plainConfig ℝ)).nwarmup ∧
    ∃ (r : TrainState ℝ (DVal ℝ)) (rec : StepRec ℝ) (lr : ℝ),
      Train ⟨Real.sqrt, Real.rpow⟩ (unitCollab ℝ) (Trainer.Init (plainConfig ℝ))
        (fun _ => [DVal.fin 1]) none "m" (oneParamModel ℝ) = some r ∧
      r.hist[1 - 1]? = some rec ∧ rec.update = some lr ∧ lr = 1e-7 := by
  have hw : 1 ≤ (Trainer.Init (plainConfig ℝ)).nwarmup := by
    simp [Trainer.Init, plainConfig]
  have hev : (Train ⟨Real.sqrt, Real.rpow⟩ (unitCollab ℝ) (Trainer.Init (plainConfig ℝ))
        (fun _ => [DVal.fin 1]) none "m" (oneParamModel ℝ)).map
      (fun r => r.hist.map (fun x => x.update.isSome)) = some [true] := by
    norm_num [Train, epochLoop, batchLoop, trainStep, Train.init, PrepareModel, Trainer.Init,
      plainConfig, unitCollab, oneParamModel, BatchLoader.ClearBuf, BatchLoader.Init, lossGate,
      IsNAN, IsINF, DVal.divInt, DVal.ltConst, Update, UpdateAt, MakeGrad, applyBackward,
      List.range, List.range.loop, _Sum, SetZeroAll]
  obtain ⟨r, hr, he⟩ := Option.map_eq_some'.mp hev
  obtain ⟨rec, hrec, hsome⟩ : ∃ rec, r.hist[1 - 1]? = some rec ∧ rec.update.isSome = true := by
    cases hh : r.hist with
    | nil => rw [hh] at he; simp at he
    | cons x xs =>
      rw [hh] at he
      simp at he
      exact ⟨x, by simp, he.1⟩
  obtain ⟨lr, hlr⟩ := Option.isSome_iff_exists.mp hsome
  have h := (C18_update_uses_pre_increment_step (unitCollab ℝ) (Trainer.Init (plainConfig ℝ))
    (fun _ => [DVal.fin 1]) none "m" (oneParamModel ℝ) hw r hr 1 rec (le_refl 1) hrec).2 lr hlr
  exact ⟨hw, r, rec, lr, hr, hrec, hlr, h.2.1 rfl⟩

/-- C19: over the reals, for every `nwarmup ≥ 1`, every `lrate ≥ 1e-7` and every
integer `step ≥ 0`, the scheduled learning rate satisfies `0 < lr(step) ≤ lrate`,
and when `lrate > 1e-7` it equals `lrate` exactly at `step = nwarmup`. -/
theorem C19_schedule_bounds (lrate : ℝ) (nwarmup step : Int) (hw : 1 ≤ nwarmup)
    (hl : 1e-7 ≤ lrate) (hs : 0 ≤ step) :
    0 < scheduleLR ⟨Real.sqrt, Real.rpow⟩ lrate nwarmup step ∧
    scheduleLR ⟨Real.sqrt, Real.rpow⟩ lrate nwarmup step ≤ lrate ∧
    (1e-7 < lrate →
      (scheduleLR ⟨Real.sqrt, Real.rpow⟩ lrate nwarmup step = lrate ↔ step = nwarmup)) := by
  have hpos : (0 : ℝ) < (nwarmup : ℝ) := by exact_mod_cast (by omega : (0 : Int) < nwarmup)
  have hl0 : (0 : ℝ) < lrate := lt_of_lt_of_le (by norm_num) hl
  by_cases h : step < nwarmup
  · rw [scheduleLR_warmup _ _ _ _ h]
    have hs0 : (0 : ℝ) ≤ (step : ℝ) := by exact_mod_cast hs
    have hlt : (step : ℝ) < (nwarmup : ℝ) := by exact_mod_cast h
    have hd : 0 ≤ (lrate - 1e-7) / (nwarmup : ℝ) := div_nonneg (sub_nonneg.mpr hl) hpos.le
    have h1 : (step : ℝ) * ((lrate - 1e-7) / (nwarmup : ℝ)) ≤
        (nwarmup : ℝ) * ((lrate - 1e-7) / (nwarmup : ℝ)) :=
      mul_le_mul_of_nonneg_right hlt.le hd
    have h4 : (nwarmup : ℝ) * ((lrate - 1e-7) / (nwarmup : ℝ)) = lrate - 1e-7 := by
      field_simp
    have h0 : 0 ≤ (step : ℝ) * ((lrate - 1e-7) / (nwarmup : ℝ)) := mul_nonneg hs0 hd
    refine ⟨by linarith [show (0 : ℝ) < 1e-7 by norm_num], by linarith, ?_⟩
    intro hl'
    have hd' : 0 < (lrate - 1e-7) / (nwarmup : ℝ) := div_pos (sub_pos.mpr hl') hpos
    have h1' := mul_lt_mul_of_pos_right hlt hd'
    constructor
    · intro he; linarith
    · intro he; omega
  · have hge : nwarmup ≤ step := by omega
    obtain ⟨e, p1, p2⟩ := scheduleLR_decay_pos lrate nwarmup step hw hge
    have hspos : (0 : ℝ) < (step : ℝ) := by exact_mod_cast (by omega : (0 : Int) < step)
    have hone : (nwarmup : ℝ) ^ ((1 : ℝ) / 2) * (nwarmup : ℝ) ^ (-((1 : ℝ) / 2)) = 1 := by
      rw [← Real.rpow_add hpos]
      simp
    have hle : (step : ℝ) ^ (-((1 : ℝ) / 2)) ≤ (nwarmup : ℝ) ^ (-((1 : ℝ) / 2)) :=
      Real.rpow_le_rpow_of_exponent_nonpos hpos (by exact_mod_cast hge) (by norm_num)
    have hprod : (nwarmup : ℝ) ^ ((1 : ℝ) / 2) * (step : ℝ) ^ (-((1 : ℝ) / 2)) ≤ 1 :=
      le_of_le_of_eq (mul_le_mul_of_nonneg_left hle p1.le) hone
    rw [e]
    refine ⟨mul_pos hl0 (mul_pos p1 p2), by nlinarith, ?_⟩
    intro _
    constructor
    · intro he
      by_contra hne
      have hlt : (nwarmup : ℝ) < (step : ℝ) := by exact_mod_cast (by omega : nwarmup < step)
      have hlt2 : (step : ℝ) ^ (-((1 : ℝ) / 2)) < (nwarmup : ℝ) ^ (-((1 : ℝ) / 2)) :=
        Real.rpow_lt_rpow_of_exponent_neg hpos hlt (by norm_num)
      have hprod2 : (nwarmup : ℝ) ^ ((1 : ℝ) / 2) * (step : ℝ) ^ (-((1 : ℝ) / 2)) < 1 :=
        lt_of_lt_of_eq (mul_lt_mul_of_pos_left hlt2 p1) hone
      nlinarith
    · intro he
      rw [he, hone, mul_one]

/-- C19 at `lrate = 7e-4`, `nwarmup = 4000`, `step = 16000`. -/
theorem C19_schedule_bounds_witness :
    (1 : Int) ≤ 4000 ∧ (1e-7 : ℝ) ≤ 7e-4 ∧ (0 : Int) ≤ 16000 ∧
    0 < scheduleLR ⟨Real.sqrt, Real.rpow⟩ (7e-4) 4000 16000 ∧
    scheduleLR ⟨Real.sqrt, Real.rpow⟩ (7e-4) 4000 16000 ≤ 7e-4 := by
  have h := C19_schedule_bounds (7e-4) 4000 16000 (by decide) (by norm_num) (by decide)
  exact ⟨by decide, by norm_num, by decide, h.1, h.2.1⟩

end nmt
